import Mathlib

/-!
# Traced reader (`traced_reader.go`, package `ohttp`)

A shallow embedding of `tracedReader`, the decorator that wraps an `io.Reader`
and reports one OpenTelemetry span from the first `Read` to the first `Read`
whose delegate result carries a non-nil error.

Modelling conventions

* The collaborators (tracer, span, wrapped stream) are external. Every call the
  reader makes on them is appended to an event log, and what they answer is an
  input of the call (`ReadEnv`, and the close error given to `Close`).
* `tracer.Start` answers with a span handle. The field `span` of the reader is
  an `Option`, because the constructor stores `nil` there; a method call on a
  `nil` span is a run-time panic, which `Read` reports by returning `none`.
* Go's signed integers wrap on overflow. `reads` is an `int`, whose width `w` is
  32 or 64 bits depending on the platform and is a parameter of `Read`;
  `totalData` is an `int64`. Both are kept in two's-complement range by `wrapInt`.
-/

namespace Ohttp

/-- Handle of a `trace.Span` value handed out by the tracer. -/
abbrev Span := Nat

/-- Handle of a `trace.Tracer`. -/
abbrev Tracer := Nat

/-- Handle of a `context.Context`. -/
abbrev Context := Nat

/-- The byte slice `p` a caller passes to `Read`. -/
abbrev Buffer := List Nat

/-- The wrapped `io.Reader`: its identity and whether its dynamic type also
implements `io.Closer` (what the type assertion `r.r.(io.Closer)` tests). -/
structure Reader where
  id : Nat
  isCloser : Bool
  deriving DecidableEq, Repr

/-- Non-nil values of Go's `error` interface, as far as `Read` looks at them:
`EOF` is the sentinel `io.EOF`, `New msg` an error made by `errors.New(msg)`,
`Wrap msg inner` an error with message `msg` whose `Unwrap` gives `inner`
(as made by `fmt.Errorf` with the `%w` verb). -/
inductive GoError where
  | EOF : GoError
  | New (msg : String) : GoError
  | Wrap (msg : String) (inner : GoError) : GoError
  deriving DecidableEq, Repr

/-- The method `Error()` of an error value: its message. -/
def GoError.Error : GoError → String
  | .EOF => "EOF"
  | .New msg => msg
  | .Wrap msg _ => msg

/-- The test `errors.Is(err, io.EOF)`: walks the `Unwrap` chain of `err`
looking for the sentinel itself. -/
def GoError.isEOF : GoError → Bool
  | .EOF => true
  | .New _ => false
  | .Wrap _ inner => inner.isEOF

/-- Status codes of `go.opentelemetry.io/otel/codes`. -/
inductive Code where
  | Unset
  | Error
  | Ok
  deriving DecidableEq, Repr

/-- An `attribute.KeyValue` with an integer value (`attribute.Int`,
`attribute.Int64`). -/
structure KeyValue where
  key : String
  value : Int
  deriving DecidableEq, Repr

/-- One call made by the reader on a collaborator. -/
inductive Event where
  | Start (tracer : Tracer) (ctx : Context) (name : String)
  | Read (r : Reader) (p : Buffer)
  | SetAttributes (span : Span) (kv : List KeyValue)
  | SetStatus (span : Span) (code : Code) (description : String)
  | End (span : Span)
  | Close (r : Reader)
  deriving DecidableEq, Repr

/-- Two's-complement wrap-around of a signed integer `bits` wide: the value
congruent to `x` modulo `2 ^ bits` in the range `-2 ^ (bits - 1) ≤ _ < 2 ^ (bits - 1)`.
It is what Go's `+`, `++` and `+=` leave in a signed integer of that width. -/
def wrapInt (bits : Nat) (x : Int) : Int :=
  Int.bmod x (2 ^ bits)

/-- The struct `tracedReader`; `reads` is a Go `int`, `totalData` an `int64`. -/
structure tracedReader where
  traceCtx : Context
  name : String
  span : Option Span
  tracer : Tracer
  reads : Int
  totalData : Int
  ended : Bool
  r : Reader
  deriving DecidableEq, Repr

/-- What the collaborators answer during one `Read`: the span `tracer.Start`
returns (used only when `Start` is called) and the result `(n, err)` of the
wrapped stream's `Read`; `n` is a Go `int`, whose value `int64(n)` keeps. -/
structure ReadEnv where
  span : Span
  n : Int
  err : Option GoError
  deriving DecidableEq, Repr

/-- Result of one method call on the reader: the reader afterwards, the calls
made on collaborators in order, and the returned value (`none` when the call
panicked instead of returning). -/
structure Outcome (α : Type) where
  state : tracedReader
  events : List Event
  ret : Option α

/-- The constructor `newTracedReader(ctx, tracer, r, name)`; `totalData` is left
at its zero value. It calls nothing on the collaborators. -/
def newTracedReader (ctx : Context) (tracer : Tracer) (r : Reader) (name : String) :
    tracedReader :=
  { traceCtx := ctx
    name := name
    span := none
    tracer := tracer
    reads := 0
    totalData := 0
    ended := false
    r := r }

/-- The guarded span start that opens `Read`:
`if r.reads == 0 && !r.ended { _, span := r.tracer.Start(r.traceCtx, r.name); r.span = span }`. -/
def tracedReader.startSpan (r : tracedReader) (env : ReadEnv) : tracedReader × List Event :=
  if r.reads == 0 && !r.ended then
    ({ r with span := some env.span }, [Event.Start r.tracer r.traceCtx r.name])
  else
    (r, [])

/-- The block `if err != nil { ... }` of `Read`, entered with the error `e`:
`SetAttributes`, `ended = true`, `SetStatus`, `End`, all on `r.span`. On a `nil`
span the first method call panics. -/
def tracedReader.endSpan (r : tracedReader) (e : GoError) : tracedReader × List Event × Bool :=
  match r.span with
  | none => (r, [], false)
  | some sp =>
    let attrs := Event.SetAttributes sp
      [{ key := "reads", value := r.reads }, { key := "bytes_read", value := r.totalData }]
    let r1 := { r with ended := true }
    let status :=
      if e.isEOF then Event.SetStatus sp Code.Ok ""
      else Event.SetStatus sp Code.Ok e.Error
    (r1, [attrs, status, Event.End sp], true)

/-- The method `func (r *tracedReader) Read(p []byte) (int, error)`, on a
platform whose `int` is `w` bits wide: `r.reads++` wraps at `w` bits and
`r.totalData += int64(n)` at 64 bits. -/
def tracedReader.Read (w : Nat) (r : tracedReader) (p : Buffer) (env : ReadEnv) :
    Outcome (Int × Option GoError) :=
  let (r1, ev1) := r.startSpan env
  -- n, err := r.r.Read(p)
  let ev2 := ev1 ++ [Event.Read r1.r p]
  if !r1.ended then
    let r2 := { r1 with reads := wrapInt w (r1.reads + 1),
                        totalData := wrapInt 64 (r1.totalData + env.n) }
    match env.err with
    | none => { state := r2, events := ev2, ret := some (env.n, none) }
    | some e =>
      match r2.endSpan e with
      | (r3, ev3, true) => { state := r3, events := ev2 ++ ev3, ret := some (env.n, some e) }
      | (r3, ev3, false) => { state := r3, events := ev2 ++ ev3, ret := none }
  else
    { state := r1, events := ev2, ret := some (env.n, env.err) }

/-- The method `func (r *tracedReader) Close() error`; `closeErr` is what the
wrapped stream's `Close` returns when it is called. -/
def tracedReader.Close (r : tracedReader) (closeErr : Option GoError) :
    Outcome (Option GoError) :=
  if r.r.isCloser then
    { state := r, events := [Event.Close r.r], ret := some closeErr }
  else
    { state := r, events := [], ret := some none }

/-! ## Sequences of calls -/

/-- One call a client makes on the reader, together with what the collaborators
answer during it. -/
inductive Call where
  | Read (p : Buffer) (env : ReadEnv)
  | Close (closeErr : Option GoError)
  deriving DecidableEq, Repr

/-- The call is a `Read`. -/
def Call.isRead : Call → Bool
  | .Read _ _ => true
  | .Close _ => false

/-- The call is a `Read` whose delegate result has a non-nil error. -/
def Call.isErrRead : Call → Bool
  | .Read _ env => env.err.isSome
  | .Close _ => false

/-- Byte count the delegate returns during the call (`0` for a `Close`). -/
def Call.bytes : Call → Int
  | .Read _ env => env.n
  | .Close _ => 0

/-- Runs one call: the reader afterwards and the calls made on collaborators. -/
def step (w : Nat) (r : tracedReader) : Call → tracedReader × List Event
  | .Read p env => ((r.Read w p env).state, (r.Read w p env).events)
  | .Close closeErr => ((r.Close closeErr).state, (r.Close closeErr).events)

/-- The reader after a sequence of calls. -/
def exec (w : Nat) (r : tracedReader) : List Call → tracedReader
  | [] => r
  | c :: cs => exec w (step w r c).1 cs

/-- Event log of a whole sequence of calls, in order. -/
def trace (w : Nat) (r : tracedReader) : List Call → List Event
  | [] => []
  | c :: cs => (step w r c).2 ++ trace w (step w r c).1 cs

/-- Events of the call `c` made right after the calls `pre`. -/
def callEvents (w : Nat) (r : tracedReader) (pre : List Call) (c : Call) : List Event :=
  (step w (exec w r pre) c).2

/-- The event is a `tracer.Start` call. -/
def Event.isStart : Event → Bool
  | .Start _ _ _ => true
  | _ => false

/-- The event is a `SetAttributes` call. -/
def Event.isSetAttributes : Event → Bool
  | .SetAttributes _ _ => true
  | _ => false

/-- The event is a `SetStatus` call. -/
def Event.isSetStatus : Event → Bool
  | .SetStatus _ _ _ => true
  | _ => false

/-- The event is a span `End` call. -/
def Event.isEnd : Event → Bool
  | .End _ => true
  | _ => false

/-- The event is a method call on a span. -/
def Event.isSpanOp : Event → Bool
  | .SetAttributes _ _ => true
  | .SetStatus _ _ _ => true
  | .End _ => true
  | _ => false

/-- The event is a `Read` call on the wrapped stream. -/
def Event.isRead : Event → Bool
  | .Read _ _ => true
  | _ => false

/-- The event is a call on the tracer or on a span. -/
def Event.isTracing : Event → Bool
  | .Start _ _ _ => true
  | .SetAttributes _ _ => true
  | .SetStatus _ _ _ => true
  | .End _ => true
  | _ => false

/-! ## Lifecycle states -/

/-- No span yet and nothing counted. -/
def tracedReader.NotStarted (r : tracedReader) : Prop :=
  r.span = none ∧ r.reads = 0 ∧ r.ended = false

/-- A span is held and the terminal read has not happened. -/
def tracedReader.Active (r : tracedReader) : Prop :=
  r.span ≠ none ∧ r.ended = false

/-- The terminal read has happened. -/
def tracedReader.Ended (r : tracedReader) : Prop :=
  r.ended = true

/-! ## Invariant and start guard -/

/-- What holds of every reader reached from the constructor: a reader without a
span has counted nothing and is not ended. -/
def tracedReader.wf (r : tracedReader) : Prop :=
  r.span = none → r.reads = 0 ∧ r.ended = false

/-- The guard of the span start, `r.reads == 0 && !r.ended`. -/
def tracedReader.guardOpen (r : tracedReader) : Bool :=
  r.reads == 0 && !r.ended

/-! ## One call -/

theorem Read_of_ended (w : Nat) (r : tracedReader) (p : Buffer) (env : ReadEnv)
    (h : r.ended = true) :
    r.Read w p env =
      { state := r, events := [Event.Read r.r p], ret := some (env.n, env.err) } := by
  simp [tracedReader.Read, tracedReader.startSpan, h]

theorem startSpan_ended (r : tracedReader) (env : ReadEnv) :
    (r.startSpan env).1.ended = r.ended := by
  unfold tracedReader.startSpan
  split <;> rfl

theorem startSpan_r (r : tracedReader) (env : ReadEnv) :
    (r.startSpan env).1.r = r.r := by
  unfold tracedReader.startSpan
  split <;> rfl

theorem Read_of_ok (w : Nat) (r : tracedReader) (p : Buffer) (env : ReadEnv)
    (h : r.ended = false) (he : env.err = none) :
    r.Read w p env =
      { state := { (r.startSpan env).1 with
                    reads := wrapInt w ((r.startSpan env).1.reads + 1)
                    totalData := wrapInt 64 ((r.startSpan env).1.totalData + env.n) }
        events := (r.startSpan env).2 ++ [Event.Read r.r p]
        ret := some (env.n, none) } := by
  have h1 := startSpan_ended r env
  have h2 := startSpan_r r env
  simp only [tracedReader.Read]
  simp [h1, h2, h, he]

theorem Read_of_err (w : Nat) (r : tracedReader) (p : Buffer) (env : ReadEnv) (e : GoError)
    (sp : Span)
    (h : r.ended = false) (he : env.err = some e) (hs : (r.startSpan env).1.span = some sp) :
    r.Read w p env =
      { state := { (r.startSpan env).1 with
                    reads := wrapInt w ((r.startSpan env).1.reads + 1)
                    totalData := wrapInt 64 ((r.startSpan env).1.totalData + env.n)
                    ended := true }
        events := (r.startSpan env).2 ++
          [Event.Read r.r p,
           Event.SetAttributes sp
             [{ key := "reads", value := wrapInt w ((r.startSpan env).1.reads + 1) },
              { key := "bytes_read", value := wrapInt 64 ((r.startSpan env).1.totalData + env.n) }],
           Event.SetStatus sp Code.Ok (if e.isEOF then "" else e.Error),
           Event.End sp]
        ret := some (env.n, some e) } := by
  have h1 := startSpan_ended r env
  have h2 := startSpan_r r env
  simp only [tracedReader.Read]
  simp only [h1, h2, h, he, tracedReader.endSpan, hs]
  by_cases hE : e.isEOF = true <;> simp [hE]

theorem startSpan_fresh (r : tracedReader) (env : ReadEnv) (h0 : r.reads = 0)
    (h : r.ended = false) :
    r.startSpan env =
      ({ r with span := some env.span }, [Event.Start r.tracer r.traceCtx r.name]) := by
  simp [tracedReader.startSpan, h0, h]

theorem startSpan_skip (r : tracedReader) (env : ReadEnv)
    (h : r.reads ≠ 0 ∨ r.ended = true) : r.startSpan env = (r, []) := by
  rcases h with h | h <;> simp [tracedReader.startSpan, h]

/-- After the guarded start the span is present, unless the reader came in with
no span although it had already counted reads. -/
theorem startSpan_span_isSome (r : tracedReader) (env : ReadEnv) (h : r.ended = false)
    (hs : r.span = none → r.reads = 0) : ∃ sp, (r.startSpan env).1.span = some sp := by
  by_cases h0 : r.reads = 0
  · exact ⟨env.span, by rw [startSpan_fresh r env h0 h]⟩
  · rw [startSpan_skip r env (Or.inl h0)]
    cases hsp : r.span with
    | none => exact absurd (hs hsp) h0
    | some sp => exact ⟨sp, rfl⟩

/-- In a lifecycle state `Read` returns, and returns the delegate's result. -/
theorem Read_ret_of_lifecycle (w : Nat) (r : tracedReader) (p : Buffer) (env : ReadEnv)
    (hs : r.span = none → r.reads = 0 ∨ r.ended = true) :
    (r.Read w p env).ret = some (env.n, env.err) := by
  cases hend : r.ended with
  | true => rw [Read_of_ended w r p env hend]
  | false =>
    cases herr : env.err with
    | none => rw [Read_of_ok w r p env hend herr]
    | some e =>
      have hs' : r.span = none → r.reads = 0 := by
        intro hn
        rcases hs hn with h | h
        · exact h
        · rw [hend] at h; cases h
      obtain ⟨sp, hsp⟩ := startSpan_span_isSome r env hend hs'
      rw [Read_of_err w r p env e sp hend herr hsp]

/-! ## The invariant holds in every reachable state -/

theorem newTracedReader_wf (ctx : Context) (tracer : Tracer) (rd : Reader) (name : String) :
    (newTracedReader ctx tracer rd name).wf := by
  simp [tracedReader.wf, newTracedReader]

theorem step_of_ended (w : Nat) (r : tracedReader) (c : Call) (h : r.ended = true) :
    (step w r c).1 = r := by
  cases c with
  | Read p env => simp [step, Read_of_ended w r p env h]
  | Close e => simp only [step, tracedReader.Close]; split <;> rfl

theorem step_Close (w : Nat) (r : tracedReader) (e : Option GoError) :
    (step w r (.Close e)).1 = r := by
  simp only [step, tracedReader.Close]; split <;> rfl

theorem wf_span (r : tracedReader) (env : ReadEnv) (hwf : r.wf) (h : r.ended = false) :
    ∃ sp, (r.startSpan env).1.span = some sp :=
  startSpan_span_isSome r env h (fun hn => (hwf hn).1)

theorem step_wf (w : Nat) (r : tracedReader) (c : Call) (hwf : r.wf) : (step w r c).1.wf := by
  cases hend : r.ended with
  | true => rw [step_of_ended w r c hend]; exact hwf
  | false =>
    cases c with
    | Close e => rw [step_Close w]; exact hwf
    | Read p env =>
      obtain ⟨sp, hsp⟩ := wf_span r env hwf hend
      cases herr : env.err with
      | none =>
        simp only [step, Read_of_ok w r p env hend herr, tracedReader.wf, hsp]
        intro h; cases h
      | some e =>
        simp only [step, Read_of_err w r p env e sp hend herr hsp, tracedReader.wf, hsp]
        intro h; cases h

theorem exec_wf (w : Nat) (cs : List Call) : ∀ r : tracedReader, r.wf → (exec w r cs).wf := by
  induction cs with
  | nil => intro r h; exact h
  | cons c cs ih => intro r h; exact ih _ (step_wf w r c h)

theorem exec_append (w : Nat) (cs ds : List Call) :
    ∀ r : tracedReader, exec w r (cs ++ ds) = exec w (exec w r cs) ds := by
  induction cs with
  | nil => intro r; rfl
  | cons c cs ih => intro r; exact ih _

theorem trace_append (w : Nat) (cs ds : List Call) :
    ∀ r : tracedReader, trace w r (cs ++ ds) = trace w r cs ++ trace w (exec w r cs) ds := by
  induction cs with
  | nil => intro r; rfl
  | cons c cs ih => intro r; simp [trace, exec, ih]

theorem trace_single (w : Nat) (r : tracedReader) (c : Call) : trace w r [c] = (step w r c).2 := by
  simp [trace]

/-- The reader is ended after a call exactly when it was ended before or the
call is a read with an error. -/
theorem step_ended_eq (w : Nat) (r : tracedReader) (c : Call) (hwf : r.wf) :
    (step w r c).1.ended = (r.ended || c.isErrRead) := by
  cases hend : r.ended with
  | true => rw [step_of_ended w r c hend]; simp [hend]
  | false =>
    cases c with
    | Close e => rw [step_Close w]; simp [hend, Call.isErrRead]
    | Read p env =>
      obtain ⟨sp, hsp⟩ := wf_span r env hwf hend
      have h1 := startSpan_ended r env
      cases herr : env.err with
      | none => simp [step, Read_of_ok w r p env hend herr, Call.isErrRead, herr, h1, hend]
      | some e => simp [step, Read_of_err w r p env e sp hend herr hsp, Call.isErrRead, herr]

theorem exec_ended_eq (w : Nat) (cs : List Call) :
    ∀ r : tracedReader, r.wf → (exec w r cs).ended = (r.ended || cs.any Call.isErrRead) := by
  induction cs with
  | nil => intro r _; simp [exec]
  | cons c cs ih =>
    intro r h
    simp only [exec]
    rw [ih _ (step_wf w r c h), step_ended_eq w r c h]
    simp [Bool.or_assoc]

/-! ## Events of one call -/

theorem startSpan_events (r : tracedReader) (env : ReadEnv) :
    (r.startSpan env).2 =
      if r.guardOpen then [Event.Start r.tracer r.traceCtx r.name] else [] := by
  unfold tracedReader.startSpan tracedReader.guardOpen
  split <;> rfl

theorem startSpan_reads (r : tracedReader) (env : ReadEnv) :
    (r.startSpan env).1.reads = r.reads := by
  unfold tracedReader.startSpan; split <;> rfl

theorem startSpan_totalData (r : tracedReader) (env : ReadEnv) :
    (r.startSpan env).1.totalData = r.totalData := by
  unfold tracedReader.startSpan; split <;> rfl

theorem events_Read_ended (w : Nat) (r : tracedReader) (p : Buffer) (env : ReadEnv)
    (h : r.ended = true) : (step w r (.Read p env)).2 = [Event.Read r.r p] := by
  simp [step, Read_of_ended w r p env h]

theorem events_Read_ok (w : Nat) (r : tracedReader) (p : Buffer) (env : ReadEnv)
    (h : r.ended = false) (he : env.err = none) :
    (step w r (.Read p env)).2 =
      (if r.guardOpen then [Event.Start r.tracer r.traceCtx r.name] else []) ++
        [Event.Read r.r p] := by
  simp [step, Read_of_ok w r p env h he, startSpan_events]

theorem events_Read_err (w : Nat) (r : tracedReader) (p : Buffer) (env : ReadEnv) (e : GoError)
    (hwf : r.wf) (h : r.ended = false) (he : env.err = some e) :
    ∃ sp, (step w r (.Read p env)).1.span = some sp ∧
      (step w r (.Read p env)).2 =
        (if r.guardOpen then [Event.Start r.tracer r.traceCtx r.name] else []) ++
          [Event.Read r.r p,
           Event.SetAttributes sp
             [{ key := "reads", value := wrapInt w (r.reads + 1) },
              { key := "bytes_read", value := wrapInt 64 (r.totalData + env.n) }],
           Event.SetStatus sp Code.Ok (if e.isEOF then "" else e.Error),
           Event.End sp] := by
  obtain ⟨sp, hsp⟩ := wf_span r env hwf h
  refine ⟨sp, ?_, ?_⟩
  · simp [step, Read_of_err w r p env e sp h he hsp, hsp]
  · simp [step, Read_of_err w r p env e sp h he hsp, startSpan_events, startSpan_reads,
      startSpan_totalData]

theorem events_Close (w : Nat) (r : tracedReader) (e : Option GoError) :
    (step w r (.Close e)).2 = if r.r.isCloser then [Event.Close r.r] else [] := by
  simp only [step, tracedReader.Close]; split <;> rfl

/-- Number of `Start` calls a call makes. -/
theorem step_count_isStart (w : Nat) (r : tracedReader) (c : Call) (hwf : r.wf) :
    (step w r c).2.countP Event.isStart = if (c.isRead && r.guardOpen) = true then 1 else 0 := by
  cases c with
  | Close e =>
    rw [events_Close w]
    by_cases hc : r.r.isCloser = true <;> simp [hc, Event.isStart, Call.isRead]
  | Read p env =>
    cases hend : r.ended with
    | true =>
      rw [events_Read_ended w r p env hend]
      simp [Event.isStart, Call.isRead, tracedReader.guardOpen, hend]
    | false =>
      cases herr : env.err with
      | none =>
        rw [events_Read_ok w r p env hend herr]
        by_cases hg : r.guardOpen = true <;> simp [hg, Event.isStart, Call.isRead]
      | some e =>
        obtain ⟨sp, -, hev⟩ := events_Read_err w r p env e hwf hend herr
        rw [hev]
        by_cases hg : r.guardOpen = true <;> simp [hg, Event.isStart, Call.isRead]

/-- The span operations of a call: none, unless the call is a read with an
error on a reader not yet ended, which makes the three terminal calls. -/
theorem step_spanOps (w : Nat) (r : tracedReader) (c : Call) (hwf : r.wf) :
    (c.isErrRead = true ∧ r.ended = false ∧
      ∃ sp kv d, (step w r c).1.span = some sp ∧
        (step w r c).2.filter Event.isSpanOp =
          [Event.SetAttributes sp kv, Event.SetStatus sp Code.Ok d, Event.End sp]) ∨
    ((c.isErrRead = false ∨ r.ended = true) ∧ (step w r c).2.filter Event.isSpanOp = []) := by
  cases c with
  | Close e =>
    right
    rw [events_Close w]
    by_cases hc : r.r.isCloser = true <;> simp [hc, Event.isSpanOp, Call.isErrRead]
  | Read p env =>
    cases hend : r.ended with
    | true =>
      right
      rw [events_Read_ended w r p env hend]
      simp [Event.isSpanOp]
    | false =>
      cases herr : env.err with
      | none =>
        right
        rw [events_Read_ok w r p env hend herr]
        by_cases hg : r.guardOpen = true <;> simp [hg, Event.isSpanOp, Call.isErrRead, herr]
      | some e =>
        left
        obtain ⟨sp, hsp, hev⟩ := events_Read_err w r p env e hwf hend herr
        refine ⟨by simp [Call.isErrRead, herr], rfl, sp,
          [{ key := "reads", value := wrapInt w (r.reads + 1) },
           { key := "bytes_read", value := wrapInt 64 (r.totalData + env.n) }],
          (if e.isEOF then "" else e.Error), hsp, ?_⟩
        rw [hev]
        by_cases hg : r.guardOpen = true <;> simp [hg, Event.isSpanOp]

theorem step_count_isEnd (w : Nat) (r : tracedReader) (c : Call) (hwf : r.wf) :
    (step w r c).2.countP Event.isEnd = if (c.isErrRead && !r.ended) = true then 1 else 0 := by
  cases c with
  | Close e =>
    rw [events_Close w]
    by_cases hc : r.r.isCloser = true <;> simp [hc, Event.isEnd, Call.isErrRead]
  | Read p env =>
    cases hend : r.ended with
    | true =>
      rw [events_Read_ended w r p env hend]
      simp [Event.isEnd]
    | false =>
      cases herr : env.err with
      | none =>
        rw [events_Read_ok w r p env hend herr]
        by_cases hg : r.guardOpen = true <;> simp [hg, Event.isEnd, Call.isErrRead, herr]
      | some e =>
        obtain ⟨sp, -, hev⟩ := events_Read_err w r p env e hwf hend herr
        rw [hev]
        by_cases hg : r.guardOpen = true <;> simp [hg, Event.isEnd, Call.isErrRead, herr]

theorem step_count_isSetAttributes (w : Nat) (r : tracedReader) (c : Call) (hwf : r.wf) :
    (step w r c).2.countP Event.isSetAttributes =
      if (c.isErrRead && !r.ended) = true then 1 else 0 := by
  cases c with
  | Close e =>
    rw [events_Close w]
    by_cases hc : r.r.isCloser = true <;> simp [hc, Event.isSetAttributes, Call.isErrRead]
  | Read p env =>
    cases hend : r.ended with
    | true =>
      rw [events_Read_ended w r p env hend]
      simp [Event.isSetAttributes]
    | false =>
      cases herr : env.err with
      | none =>
        rw [events_Read_ok w r p env hend herr]
        by_cases hg : r.guardOpen = true <;>
          simp [hg, Event.isSetAttributes, Call.isErrRead, herr]
      | some e =>
        obtain ⟨sp, -, hev⟩ := events_Read_err w r p env e hwf hend herr
        rw [hev]
        by_cases hg : r.guardOpen = true <;>
          simp [hg, Event.isSetAttributes, Call.isErrRead, herr]

/-! ## Whole sequences -/

theorem count_ended_split (e a b : Bool) :
    ((if (a && !e) = true then 1 else 0) + (if (!(e || a) && b) = true then 1 else 0) : Nat) =
      if (!e && (a || b)) = true then 1 else 0 := by
  cases e <;> cases a <;> cases b <;> rfl

theorem trace_count_isEnd (w : Nat) (cs : List Call) :
    ∀ r : tracedReader, r.wf →
      (trace w r cs).countP Event.isEnd =
        if (!r.ended && cs.any Call.isErrRead) = true then 1 else 0 := by
  induction cs with
  | nil => intro r _; simp [trace]
  | cons c cs ih =>
    intro r h
    simp only [trace, List.countP_append]
    rw [ih _ (step_wf w r c h), step_count_isEnd w r c h, step_ended_eq w r c h]
    rw [List.any_cons]
    exact count_ended_split _ _ _

theorem trace_count_isSetAttributes (w : Nat) (cs : List Call) :
    ∀ r : tracedReader, r.wf →
      (trace w r cs).countP Event.isSetAttributes =
        if (!r.ended && cs.any Call.isErrRead) = true then 1 else 0 := by
  induction cs with
  | nil => intro r _; simp [trace]
  | cons c cs ih =>
    intro r h
    simp only [trace, List.countP_append]
    rw [ih _ (step_wf w r c h), step_count_isSetAttributes w r c h, step_ended_eq w r c h]
    rw [List.any_cons]
    exact count_ended_split _ _ _

theorem exists_End_iff (l : List Event) :
    (∃ sp, Event.End sp ∈ l) ↔ 0 < l.countP Event.isEnd := by
  rw [List.countP_pos_iff]
  constructor
  · rintro ⟨sp, h⟩; exact ⟨_, h, rfl⟩
  · rintro ⟨ev, h, hev⟩
    cases ev <;> simp [Event.isEnd] at hev
    exact ⟨_, h⟩

theorem exists_SetAttributes_iff (l : List Event) :
    (∃ sp kv, Event.SetAttributes sp kv ∈ l) ↔ 0 < l.countP Event.isSetAttributes := by
  rw [List.countP_pos_iff]
  constructor
  · rintro ⟨sp, kv, h⟩; exact ⟨_, h, rfl⟩
  · rintro ⟨ev, h, hev⟩
    cases ev <;> simp [Event.isSetAttributes] at hev
    exact ⟨_, _, h⟩

theorem exists_Start_iff (l : List Event) :
    (∃ t ctx name, Event.Start t ctx name ∈ l) ↔ 0 < l.countP Event.isStart := by
  rw [List.countP_pos_iff]
  constructor
  · rintro ⟨t, ctx, name, h⟩; exact ⟨_, h, rfl⟩
  · rintro ⟨ev, h, hev⟩
    cases ev <;> simp [Event.isStart] at hev
    exact ⟨_, _, _, h⟩

theorem pos_ite_iff (b : Bool) : 0 < (if b = true then 1 else 0 : Nat) ↔ b = true := by
  cases b <;> simp

theorem any_eq_false_iff (cs : List Call) (f : Call → Bool) :
    cs.any f = false ↔ ∀ d ∈ cs, f d = false := by
  simp

/-- After calls none of which is a read with an error, a reader built by the
constructor is not ended. -/
theorem exec_new_not_ended (w : Nat) (ctx : Context) (tracer : Tracer) (rd : Reader) (name : String)
    (pre : List Call) (hpre : ∀ d ∈ pre, d.isErrRead = false) :
    (exec w (newTracedReader ctx tracer rd name) pre).ended = false := by
  rw [exec_ended_eq w pre _ (newTracedReader_wf ctx tracer rd name),
    (any_eq_false_iff pre Call.isErrRead).2 hpre]
  rfl

theorem trace_spanOps_of_ended (w : Nat) (cs : List Call) :
    ∀ r : tracedReader, r.wf → r.ended = true → (trace w r cs).filter Event.isSpanOp = [] := by
  induction cs with
  | nil => intro r _ _; rfl
  | cons c cs ih =>
    intro r hwf h
    simp only [trace, List.filter_append]
    rcases step_spanOps w r c hwf with ⟨-, he, -⟩ | ⟨-, hnil⟩
    · rw [h] at he; cases he
    · rw [hnil, step_of_ended w r c h, ih r hwf h]
      rfl

/-- Span operations of a whole run from a reader not yet ended: none when no
read gets an error, otherwise exactly the three terminal calls. -/
theorem trace_spanOps (w : Nat) (cs : List Call) :
    ∀ r : tracedReader, r.wf → r.ended = false →
      (cs.any Call.isErrRead = false → (trace w r cs).filter Event.isSpanOp = []) ∧
      (cs.any Call.isErrRead = true → ∃ sp kv code descr,
        (trace w r cs).filter Event.isSpanOp =
          [Event.SetAttributes sp kv, Event.SetStatus sp code descr, Event.End sp]) := by
  induction cs with
  | nil =>
    intro r _ _
    exact ⟨fun _ => rfl, fun h => by simp at h⟩
  | cons c cs ih =>
    intro r hwf hend
    have hwf' := step_wf w r c hwf
    have hended := step_ended_eq w r c hwf
    simp only [trace, List.filter_append, List.any_cons]
    rcases step_spanOps w r c hwf with ⟨hc, -, sp, kv, d, -, hev⟩ | ⟨hc, hnil⟩
    · have hend' : (step w r c).1.ended = true := by rw [hended, hc]; simp
      rw [hev, trace_spanOps_of_ended w cs _ hwf' hend']
      exact ⟨fun h => by simp [hc] at h, fun _ => ⟨sp, kv, Code.Ok, d, rfl⟩⟩
    · have hc' : c.isErrRead = false := by
        rcases hc with h | h
        · exact h
        · rw [hend] at h; cases h
      have hend' : (step w r c).1.ended = false := by rw [hended, hend, hc']; rfl
      obtain ⟨h1, h2⟩ := ih _ hwf' hend'
      rw [hnil, hc']
      simp only [Bool.false_or, List.nil_append]
      exact ⟨h1, h2⟩

/-! ## Wrap-around -/

theorem wrapInt_zero (w : Nat) : wrapInt w 0 = 0 := by
  simp [wrapInt]

theorem wrapInt_add_wrap (w : Nat) (x y : Int) :
    wrapInt w (wrapInt w x + y) = wrapInt w (x + y) := by
  unfold wrapInt
  exact Int.bmod_add_bmod_congr

/-- A value inside the two's-complement range is left as it is. -/
theorem wrapInt_eq_self (w : Nat) (x : Int) (hlo : -((2 : Int) ^ w) ≤ 2 * x)
    (hhi : 2 * x < (2 : Int) ^ w) : wrapInt w x = x := by
  have hpos : (0 : Int) < ((2 ^ w : Nat) : Int) := by positivity
  have hcast : ((2 ^ w : Nat) : Int) = (2 : Int) ^ w := by push_cast; rfl
  rw [← hcast] at hlo hhi
  unfold wrapInt
  rw [Int.bmod_def]
  generalize ((2 ^ w : Nat) : Int) = m at hpos hlo hhi
  have h1 := Int.emod_nonneg x (ne_of_gt hpos)
  have h2 := Int.emod_lt_of_pos x hpos
  have h3 := Int.emod_add_ediv x m
  by_cases hx : 0 ≤ x
  · have hq : x / m = 0 := Int.ediv_eq_zero_of_lt hx (by omega)
    rw [hq] at h3
    simp only [mul_zero, add_zero] at h3
    rw [h3]
    split <;> omega
  · have hq : x / m = -1 := by
      have h4 : (x + m) / m = 0 := Int.ediv_eq_zero_of_lt (by omega) (by omega)
      rw [Int.add_ediv_of_dvd_right (dvd_refl m), Int.ediv_self (ne_of_gt hpos)] at h4
      omega
    rw [hq] at h3
    have h5 : x % m = x + m := by linarith
    rw [h5]
    split <;> omega

/-- A count below `2 ^ w` wraps to zero only when it is zero. -/
theorem wrapInt_natCast_eq_zero (w k : Nat) (hk : k < 2 ^ w) :
    wrapInt w (k : Int) = 0 ↔ k = 0 := by
  constructor
  · intro h
    have hmod : ((k : Int)) % ((2 ^ w : Nat) : Int) = 0 := by
      unfold wrapInt at h
      rw [← Int.bmod_emod, h]
      simp
    have hlt : ((k : Int)) % ((2 ^ w : Nat) : Int) = (k : Int) :=
      Int.emod_eq_of_lt (by positivity) (by exact_mod_cast hk)
    rw [hlt] at hmod
    exact_mod_cast hmod
  · intro h
    subst h
    simp [wrapInt]

/-- The count `2 ^ w` itself wraps to zero. -/
theorem wrapInt_two_pow (w : Nat) : wrapInt w (((2 ^ w : Nat) : Int)) = 0 := by
  unfold wrapInt
  rw [← Int.emod_bmod_congr]
  simp

/-! ## Counters and the start guard over a run -/

/-- Counters after calls none of which is a read with an error: the number of
reads and the byte total, each wrapped to its type. -/
theorem exec_counters (w : Nat) (cs : List Call) :
    ∀ (r : tracedReader) (a b : Int), r.wf → r.ended = false →
      r.reads = wrapInt w a → r.totalData = wrapInt 64 b →
      (∀ c ∈ cs, c.isErrRead = false) →
      (exec w r cs).reads = wrapInt w (a + cs.countP Call.isRead) ∧
      (exec w r cs).totalData = wrapInt 64 (b + (cs.map Call.bytes).sum) := by
  induction cs with
  | nil => intro r a b _ _ ha hb _; simp [exec, ha, hb]
  | cons c cs ih =>
    intro r a b hwf hend ha hb hcs
    have hc : c.isErrRead = false := hcs c (List.mem_cons_self _ _)
    have hend' : (step w r c).1.ended = false := by
      rw [step_ended_eq w r c hwf, hend, hc]; rfl
    have hrest : ∀ d ∈ cs, d.isErrRead = false := fun d hd => hcs d (List.mem_cons_of_mem _ hd)
    simp only [exec]
    cases c with
    | Close e =>
      have hst := step_Close w r e
      obtain ⟨h1, h2⟩ := ih _ a b (step_wf w r _ hwf) hend' (by rw [hst]; exact ha)
        (by rw [hst]; exact hb) hrest
      rw [h1, h2]
      simp [Call.isRead, Call.bytes]
    | Read p env =>
      have herr : env.err = none := by
        cases h : env.err with
        | none => rfl
        | some e => simp [Call.isErrRead, h] at hc
      have hr : (step w r (Call.Read p env)).1.reads = wrapInt w (a + 1) := by
        simp only [step, Read_of_ok w r p env hend herr, startSpan_reads]
        rw [ha, wrapInt_add_wrap]
      have ht : (step w r (Call.Read p env)).1.totalData = wrapInt 64 (b + env.n) := by
        simp only [step, Read_of_ok w r p env hend herr, startSpan_totalData]
        rw [hb, wrapInt_add_wrap]
      obtain ⟨h1, h2⟩ := ih _ (a + 1) (b + env.n) (step_wf w r _ hwf) hend' hr ht hrest
      rw [h1, h2]
      simp only [Call.isRead, List.countP_cons_of_pos, List.map_cons, List.sum_cons, Call.bytes]
      constructor
      · congr 1; push_cast; ring
      · congr 1; ring

/-- Counters of a reader built by the constructor after calls none of which is a
read with an error. -/
theorem exec_new_counters (w : Nat) (ctx : Context) (tracer : Tracer) (rd : Reader)
    (name : String) (cs : List Call) (hcs : ∀ c ∈ cs, c.isErrRead = false) :
    (exec w (newTracedReader ctx tracer rd name) cs).reads =
        wrapInt w (cs.countP Call.isRead : Nat) ∧
    (exec w (newTracedReader ctx tracer rd name) cs).totalData =
        wrapInt 64 ((cs.map Call.bytes).sum) := by
  have h := exec_counters w cs (newTracedReader ctx tracer rd name) 0 0
    (newTracedReader_wf ctx tracer rd name) rfl (wrapInt_zero w).symm (wrapInt_zero 64).symm hcs
  simpa using h

theorem isRead_of_isErrRead (d : Call) (h : d.isErrRead = true) : d.isRead = true := by
  cases d with
  | Read p env => rfl
  | Close e => simp [Call.isErrRead] at h

/-- As long as fewer than `2 ^ w` reads were made, the start guard of a reader
built by the constructor is open exactly when no read was made. -/
theorem guardOpen_new (w : Nat) (ctx : Context) (tracer : Tracer) (rd : Reader)
    (name : String) (pre : List Call) (hpre : pre.countP Call.isRead < 2 ^ w) :
    (exec w (newTracedReader ctx tracer rd name) pre).guardOpen = !pre.any Call.isRead := by
  have hwf0 := newTracedReader_wf ctx tracer rd name
  have hended := exec_ended_eq w pre _ hwf0
  cases herr : pre.any Call.isErrRead with
  | true =>
    have hany : pre.any Call.isRead = true := by
      rw [List.any_eq_true] at herr ⊢
      obtain ⟨d, hd, hdr⟩ := herr
      exact ⟨d, hd, isRead_of_isErrRead d hdr⟩
    rw [herr] at hended
    simp [tracedReader.guardOpen, hended, hany]
  | false =>
    have hno := (any_eq_false_iff pre Call.isErrRead).1 herr
    obtain ⟨hreads, -⟩ := exec_new_counters w ctx tracer rd name pre hno
    rw [herr] at hended
    have hended' : (exec w (newTracedReader ctx tracer rd name) pre).ended = false := by
      simpa [newTracedReader] using hended
    have hzero := wrapInt_natCast_eq_zero w _ hpre
    cases hany : pre.any Call.isRead with
    | false =>
      have hcount : pre.countP Call.isRead = 0 := by
        rw [List.countP_eq_zero]
        intro d hd
        simp [(any_eq_false_iff pre Call.isRead).1 hany d hd]
      simp [tracedReader.guardOpen, hreads, hended', hzero.2 hcount]
    | true =>
      have hcount : pre.countP Call.isRead ≠ 0 := by
        intro h0
        rw [List.countP_eq_zero] at h0
        rw [List.any_eq_true] at hany
        obtain ⟨d, hd, hdr⟩ := hany
        exact h0 d hd hdr
      have hne : wrapInt w ((pre.countP Call.isRead : Nat) : Int) ≠ 0 :=
        fun h => hcount (hzero.1 h)
      simp [tracedReader.guardOpen, hreads, hne]

/-- Number of `Start` calls of a run with at most `2 ^ w` reads. -/
theorem trace_count_isStart (w : Nat) (ctx : Context) (tracer : Tracer) (rd : Reader)
    (name : String) (cs : List Call) :
    cs.countP Call.isRead ≤ 2 ^ w →
      (trace w (newTracedReader ctx tracer rd name) cs).countP Event.isStart =
        if cs.any Call.isRead = true then 1 else 0 := by
  induction cs using List.reverseRecOn with
  | nil => intro _; rfl
  | append_singleton pre c ih =>
    intro hcs
    have hwf := exec_wf w pre _ (newTracedReader_wf ctx tracer rd name)
    rw [List.countP_append] at hcs
    rw [trace_append, trace_single, List.countP_append, ih (by omega),
      step_count_isStart w _ c hwf, List.any_append]
    cases hc : c.isRead with
    | false => simp [hc]
    | true =>
      have hlt : pre.countP Call.isRead < 2 ^ w := by
        simp [List.countP_cons, hc] at hcs
        omega
      rw [guardOpen_new w ctx tracer rd name pre hlt]
      cases pre.any Call.isRead <;> simp [hc]

/-- A reader built by the constructor after `k` reads that all get the same
nil-error answer: the counter is `k` wrapped to `w` bits and the reader is not
ended. -/
theorem exec_replicate_ok (w : Nat) (ctx : Context) (tracer : Tracer) (rd : Reader)
    (name : String) (p : Buffer) (env : ReadEnv) (k : Nat) (herr : env.err = none) :
    (exec w (newTracedReader ctx tracer rd name) (List.replicate k (Call.Read p env))).reads =
        wrapInt w (k : Int) ∧
    (exec w (newTracedReader ctx tracer rd name) (List.replicate k (Call.Read p env))).ended =
        false := by
  have hno : ∀ d ∈ List.replicate k (Call.Read p env), d.isErrRead = false := by
    intro d hd
    rw [List.eq_of_mem_replicate hd]
    simp [Call.isErrRead, herr]
  have hcount : (List.replicate k (Call.Read p env)).countP Call.isRead = k := by
    have h : (List.replicate k (Call.Read p env)).countP Call.isRead =
        (List.replicate k (Call.Read p env)).length :=
      List.countP_eq_length.2 (fun d hd => by rw [List.eq_of_mem_replicate hd]; rfl)
    rw [h, List.length_replicate]
  obtain ⟨hreads, -⟩ := exec_new_counters w ctx tracer rd name _ hno
  rw [hcount] at hreads
  exact ⟨hreads, exec_new_not_ended w ctx tracer rd name _ hno⟩

/-! ## The claims -/

/-- C1: in every lifecycle state of the reader (not started, active or ended),
for every buffer and every result `(n, err)` of the wrapped stream's `Read`,
`tracedReader.Read` returns, and returns exactly `(n, err)`. -/
theorem C1_read_returns_delegate_result (w : Nat) (r : tracedReader) (p : Buffer) (env : ReadEnv)
    (h : r.NotStarted ∨ r.Active ∨ r.Ended) :
    (r.Read w p env).ret = some (env.n, env.err) := by
  apply Read_ret_of_lifecycle w
  intro hn
  rcases h with h | h | h
  · exact Or.inl h.2.1
  · exact absurd hn h.1
  · exact Or.inr h

/-- C1 at a concrete input: an active reader whose delegate returns 3 bytes
together with a non-sentinel error. -/
theorem C1_read_returns_delegate_result_witness :
    (({ traceCtx := 1, name := "body", span := some 7, tracer := 2, reads := 4,
        totalData := 40, ended := false, r := ⟨3, true⟩ } : tracedReader).Read 64 [0, 0, 0]
        ⟨9, 3, some (GoError.New "reset")⟩).ret = some (3, some (GoError.New "reset")) :=
  C1_read_returns_delegate_result 64 _ _ _ (Or.inr (Or.inl ⟨by simp, rfl⟩))

/-- C2 (amended): for a reader built by `newTracedReader` and a sequence of
reads of which the first `N` return a nil error and the next one a non-nil
error, the terminal read makes the only `SetAttributes` call of the run, with
`reads` the count `N + 1` wrapped to Go's `int` (`w` bits) and `bytes_read` the
sum of all byte counts, the terminal one included, wrapped to `int64`; hence
`reads = N + 1` when `N + 1 < 2 ^ (w - 1)` and `bytes_read` is the sum when the
sum lies in `-2 ^ 63 ≤ _ < 2 ^ 63`. -/
theorem C2_attributes_at_termination (w : Nat) (ctx : Context) (tracer : Tracer)
    (rd : Reader) (name : String) (pre : List Call) (p : Buffer) (env : ReadEnv) (e : GoError)
    (hpre : ∀ d ∈ pre, d.isRead = true ∧ d.isErrRead = false) (herr : env.err = some e) :
    ∃ sp reads bytes,
      (exec w (newTracedReader ctx tracer rd name) (pre ++ [Call.Read p env])).span = some sp ∧
      (callEvents w (newTracedReader ctx tracer rd name) pre (Call.Read p env)).filter
          Event.isSetAttributes =
        [Event.SetAttributes sp
          [{ key := "reads", value := reads }, { key := "bytes_read", value := bytes }]] ∧
      (trace w (newTracedReader ctx tracer rd name) (pre ++ [Call.Read p env])).filter
          Event.isSetAttributes =
        [Event.SetAttributes sp
          [{ key := "reads", value := reads }, { key := "bytes_read", value := bytes }]] ∧
      reads = wrapInt w ((pre.length : Int) + 1) ∧
      bytes = wrapInt 64 ((pre.map Call.bytes).sum + env.n) ∧
      (2 * ((pre.length : Int) + 1) < 2 ^ w → reads = (pre.length : Int) + 1) ∧
      (-(2 : Int) ^ 63 ≤ (pre.map Call.bytes).sum + env.n →
        (pre.map Call.bytes).sum + env.n < 2 ^ 63 →
        bytes = (pre.map Call.bytes).sum + env.n) := by
  have hwf0 := newTracedReader_wf ctx tracer rd name
  have hno : ∀ d ∈ pre, d.isErrRead = false := fun d hd => (hpre d hd).2
  have hwf := exec_wf w pre _ hwf0
  have hend := exec_new_not_ended w ctx tracer rd name pre hno
  obtain ⟨hreads, htotal⟩ := exec_new_counters w ctx tracer rd name pre hno
  have hlen : pre.countP Call.isRead = pre.length :=
    List.countP_eq_length.2 (fun d hd => (hpre d hd).1)
  rw [hlen] at hreads
  obtain ⟨sp, hsp, hev⟩ := events_Read_err w _ p env e hwf hend herr
  rw [hreads, htotal, wrapInt_add_wrap, wrapInt_add_wrap] at hev
  have hcall : (callEvents w (newTracedReader ctx tracer rd name) pre (Call.Read p env)).filter
      Event.isSetAttributes =
        [Event.SetAttributes sp
          [{ key := "reads", value := wrapInt w ((pre.length : Int) + 1) },
           { key := "bytes_read", value := wrapInt 64 ((pre.map Call.bytes).sum + env.n) }]] := by
    unfold callEvents
    rw [hev]
    by_cases hg : (exec w (newTracedReader ctx tracer rd name) pre).guardOpen = true <;>
      simp [hg, Event.isSetAttributes]
  have hbefore : (trace w (newTracedReader ctx tracer rd name) pre).filter
      Event.isSetAttributes = [] := by
    have hc := trace_count_isSetAttributes w pre _ hwf0
    rw [(any_eq_false_iff pre Call.isErrRead).2 hno] at hc
    simp only [Bool.and_false, Bool.false_eq_true, if_false] at hc
    rw [List.countP_eq_zero] at hc
    exact List.filter_eq_nil_iff.2 hc
  refine ⟨sp, _, _, ?_, hcall, ?_, rfl, rfl, ?_, ?_⟩
  · rw [exec_append]; exact hsp
  · rw [trace_append, List.filter_append, hbefore, trace_single]
    exact hcall
  · intro h
    apply wrapInt_eq_self
    · have : (0 : Int) < 2 ^ w := by positivity
      have : (0 : Int) ≤ (pre.length : Int) := Int.natCast_nonneg _
      omega
    · exact h
  · intro hlo hhi
    apply wrapInt_eq_self <;> norm_num at hlo hhi ⊢ <;> omega

/-- C2 (amended) at the spec's scenario A on a 64-bit platform: a read returning
`(5, nil)`, then a read returning `(0, io.EOF)`, record `reads = 2` and
`bytes_read = 5`. -/
theorem C2_attributes_at_termination_witness :
    ∃ sp, (callEvents 64 (newTracedReader 1 2 ⟨3, true⟩ "body")
          [Call.Read [0, 0, 0, 0, 0] ⟨7, 5, none⟩]
          (Call.Read [0, 0, 0, 0, 0] ⟨8, 0, some GoError.EOF⟩)).filter
          Event.isSetAttributes =
        [Event.SetAttributes sp
          [{ key := "reads", value := 2 }, { key := "bytes_read", value := 5 }]] :=
  (C2_attributes_at_termination 64 1 2 ⟨3, true⟩ "body"
    [Call.Read [0, 0, 0, 0, 0] ⟨7, 5, none⟩]
    [0, 0, 0, 0, 0] ⟨8, 0, some GoError.EOF⟩ GoError.EOF (by decide) rfl).elim
    (fun sp h => h.elim (fun reads h => h.elim (fun bytes h =>
      ⟨sp, by
        have h2 := h.2.1
        have hr : reads = 2 := h.2.2.2.2.2.1 (by decide)
        have hb : bytes = 5 := h.2.2.2.2.2.2 (by decide) (by decide)
        rw [hr, hb] at h2
        exact h2⟩)))

/-- C2 as stated fails on a 64-bit platform: after two reads returning `2 ^ 62`
bytes each, the read returning `(0, io.EOF)` records `bytes_read = -2 ^ 63`,
while the sum of the byte counts is `2 ^ 63`. -/
theorem C2_attributes_at_termination_counterexample :
    (callEvents 64 (newTracedReader 1 2 ⟨3, true⟩ "body")
        [Call.Read [0] ⟨7, 4611686018427387904, none⟩,
         Call.Read [0] ⟨7, 4611686018427387904, none⟩]
        (Call.Read [0] ⟨7, 0, some GoError.EOF⟩)).filter Event.isSetAttributes =
      [Event.SetAttributes 7
        [{ key := "reads", value := 3 },
         { key := "bytes_read", value := -9223372036854775808 }]] ∧
    (([Call.Read [0] ⟨7, 4611686018427387904, none⟩,
       Call.Read [0] ⟨7, 4611686018427387904, none⟩].map Call.bytes).sum + 0 : Int) =
      9223372036854775808 := by
  constructor <;> decide

/-- C3: for a reader built by `newTracedReader` and any calls `pre` followed by
a call `c`, the span's `End` (and likewise `SetAttributes`) is called during `c`
if and only if `c` is a read whose delegate result has a non-nil error and no
call of `pre` is such a read; over any whole sequence `cs` of calls, `End` and
`SetAttributes` are each called at most once. -/
theorem C3_end_iff_first_error_read (w : Nat) (ctx : Context) (tracer : Tracer) (rd : Reader)
    (name : String) (pre : List Call) (c : Call) (cs : List Call) :
    ((∃ sp, Event.End sp ∈ callEvents w (newTracedReader ctx tracer rd name) pre c) ↔
        (c.isErrRead = true ∧ ∀ d ∈ pre, d.isErrRead = false)) ∧
    ((∃ sp kv, Event.SetAttributes sp kv ∈
          callEvents w (newTracedReader ctx tracer rd name) pre c) ↔
        (c.isErrRead = true ∧ ∀ d ∈ pre, d.isErrRead = false)) ∧
    (trace w (newTracedReader ctx tracer rd name) cs).countP Event.isEnd ≤ 1 ∧
    (trace w (newTracedReader ctx tracer rd name) cs).countP Event.isSetAttributes ≤ 1 := by
  have hwf0 := newTracedReader_wf ctx tracer rd name
  have hwf := exec_wf w pre _ hwf0
  have hended : (exec w (newTracedReader ctx tracer rd name) pre).ended =
      pre.any Call.isErrRead := by
    rw [exec_ended_eq w pre _ hwf0]; simp [newTracedReader]
  have hcond : ((c.isErrRead && !(exec w (newTracedReader ctx tracer rd name) pre).ended) = true) ↔
      (c.isErrRead = true ∧ ∀ d ∈ pre, d.isErrRead = false) := by
    rw [hended, ← any_eq_false_iff pre Call.isErrRead]
    cases c.isErrRead <;> cases pre.any Call.isErrRead <;> simp
  refine ⟨?_, ?_, ?_, ?_⟩
  · rw [exists_End_iff, callEvents, step_count_isEnd w _ c hwf, pos_ite_iff]
    exact hcond
  · rw [exists_SetAttributes_iff, callEvents, step_count_isSetAttributes w _ c hwf, pos_ite_iff]
    exact hcond
  · rw [trace_count_isEnd w cs _ hwf0]
    split <;> omega
  · rw [trace_count_isSetAttributes w cs _ hwf0]
    split <;> omega

/-- C4 (amended): for a reader built by `newTracedReader` on a platform whose
`int` is `w` bits wide, and calls `pre` followed by a call `c` that together
hold at most `2 ^ w` reads, `tracer.Start` is called during `c` if and only if
`c` is a read and no call of `pre` is a read, whatever the delegate returns;
over a whole sequence `cs` with at most `2 ^ w` reads `Start` is called once if
`cs` contains a read and never otherwise. -/
theorem C4_start_iff_first_read (w : Nat) (ctx : Context) (tracer : Tracer) (rd : Reader)
    (name : String) (pre : List Call) (c : Call) (cs : List Call)
    (hseq : (pre ++ [c]).countP Call.isRead ≤ 2 ^ w) (hcs : cs.countP Call.isRead ≤ 2 ^ w) :
    ((∃ t x nm, Event.Start t x nm ∈
          callEvents w (newTracedReader ctx tracer rd name) pre c) ↔
        (c.isRead = true ∧ ∀ d ∈ pre, d.isRead = false)) ∧
    (trace w (newTracedReader ctx tracer rd name) cs).countP Event.isStart =
      if cs.any Call.isRead = true then 1 else 0 := by
  have hwf0 := newTracedReader_wf ctx tracer rd name
  have hwf := exec_wf w pre _ hwf0
  have hcond : ((c.isRead &&
      (exec w (newTracedReader ctx tracer rd name) pre).guardOpen) = true) ↔
      (c.isRead = true ∧ ∀ d ∈ pre, d.isRead = false) := by
    cases hc : c.isRead with
    | false => simp
    | true =>
      have hpre : pre.countP Call.isRead < 2 ^ w := by
        simp only [List.countP_append, List.countP_cons, hc] at hseq
        simp at hseq
        omega
      rw [guardOpen_new w ctx tracer rd name pre hpre, ← any_eq_false_iff pre Call.isRead]
      cases pre.any Call.isRead <;> simp
  refine ⟨?_, trace_count_isStart w ctx tracer rd name cs hcs⟩
  rw [exists_Start_iff, callEvents, step_count_isStart w _ c hwf, pos_ite_iff]
  exact hcond

/-- C4 (amended) at concrete runs on a 64-bit platform: a close alone starts no
span; close, read, read, close starts exactly one. -/
theorem C4_start_iff_first_read_witness :
    (trace 64 (newTracedReader 1 2 ⟨3, true⟩ "body") [Call.Close none]).countP
      Event.isStart = 0 ∧
    (trace 64 (newTracedReader 1 2 ⟨3, true⟩ "body")
      [Call.Close none, Call.Read [0] ⟨7, 1, none⟩, Call.Read [0] ⟨8, 0, some GoError.EOF⟩,
       Call.Close none]).countP Event.isStart = 1 :=
  ⟨(C4_start_iff_first_read 64 1 2 ⟨3, true⟩ "body" [] (Call.Close none) [Call.Close none]
      (by decide) (by decide)).2,
   (C4_start_iff_first_read 64 1 2 ⟨3, true⟩ "body" [] (Call.Close none)
      [Call.Close none, Call.Read [0] ⟨7, 1, none⟩, Call.Read [0] ⟨8, 0, some GoError.EOF⟩,
       Call.Close none] (by decide) (by decide)).2⟩

/-- C4 as stated fails on a 32-bit platform: after `2 ^ 32` reads that each
return `(1, nil)` the counter `reads` is back at 0, so the next read, which is
not the first, calls `tracer.Start` again. -/
theorem C4_start_iff_first_read_counterexample :
    (∃ t x nm, Event.Start t x nm ∈
        callEvents 32 (newTracedReader 1 2 ⟨3, true⟩ "body")
          (List.replicate 4294967296 (Call.Read [0] ⟨7, 1, none⟩))
          (Call.Read [0] ⟨8, 1, none⟩)) ∧
    ¬ ((Call.Read [0] ⟨8, 1, none⟩).isRead = true ∧
        ∀ d ∈ List.replicate 4294967296 (Call.Read [0] ⟨7, 1, none⟩), d.isRead = false) := by
  constructor
  · obtain ⟨hreads, hended⟩ := exec_replicate_ok 32 1 2 ⟨3, true⟩ "body" [0] ⟨7, 1, none⟩
      4294967296 rfl
    have hzero : wrapInt 32 (((4294967296 : Nat)) : Int) = 0 := by decide
    rw [hzero] at hreads
    have hwf := exec_wf 32 (List.replicate 4294967296 (Call.Read [0] ⟨7, 1, none⟩)) _
      (newTracedReader_wf 1 2 ⟨3, true⟩ "body")
    rw [exists_Start_iff, callEvents]
    generalize exec 32 (newTracedReader 1 2 ⟨3, true⟩ "body")
      (List.replicate 4294967296 (Call.Read [0] ⟨7, 1, none⟩)) = s at hreads hended hwf ⊢
    rw [step_count_isStart 32 s _ hwf, pos_ite_iff]
    simp [Call.isRead, tracedReader.guardOpen, hreads, hended]
  · rintro ⟨-, h⟩
    have hmem : Call.Read [0] ⟨7, 1, none⟩ ∈
        List.replicate 4294967296 (Call.Read [0] ⟨7, 1, none⟩) :=
      List.mem_replicate.2 ⟨by decide, rfl⟩
    have := h _ hmem
    simp [Call.isRead] at this

/-- C3 at a concrete run: of the calls read (4, nil), read (0, EOF), read
(0, EOF), close, only the second makes the `End` call. -/
theorem C3_end_iff_first_error_read_witness :
    (∃ sp, Event.End sp ∈ callEvents 64 (newTracedReader 1 2 ⟨3, true⟩ "body")
        [Call.Read [0, 0, 0, 0] ⟨7, 4, none⟩] (Call.Read [0, 0, 0, 0] ⟨8, 0, some GoError.EOF⟩)) ∧
    (¬ ∃ sp, Event.End sp ∈ callEvents 64 (newTracedReader 1 2 ⟨3, true⟩ "body")
        [Call.Read [0, 0, 0, 0] ⟨7, 4, none⟩, Call.Read [0, 0, 0, 0] ⟨8, 0, some GoError.EOF⟩]
        (Call.Read [0, 0, 0, 0] ⟨9, 0, some GoError.EOF⟩)) :=
  ⟨(C3_end_iff_first_error_read 64 1 2 ⟨3, true⟩ "body" [Call.Read [0, 0, 0, 0] ⟨7, 4, none⟩]
      (Call.Read [0, 0, 0, 0] ⟨8, 0, some GoError.EOF⟩) []).1.2 (by decide),
   fun h => absurd ((C3_end_iff_first_error_read 64 1 2 ⟨3, true⟩ "body"
      [Call.Read [0, 0, 0, 0] ⟨7, 4, none⟩, Call.Read [0, 0, 0, 0] ⟨8, 0, some GoError.EOF⟩]
      (Call.Read [0, 0, 0, 0] ⟨9, 0, some GoError.EOF⟩) []).1.1 h) (by decide)⟩

/-- C5: when the first non-nil delegate error of a reader built by
`newTracedReader` is the sentinel `io.EOF`, the read that receives it calls
`SetStatus` once, on the reader's span, with code `Ok` and an empty description. -/
theorem C5_eof_sets_ok_status (w : Nat) (ctx : Context) (tracer : Tracer) (rd : Reader)
    (name : String) (pre : List Call) (p : Buffer) (env : ReadEnv)
    (hpre : ∀ d ∈ pre, d.isErrRead = false) (herr : env.err = some GoError.EOF) :
    ∃ sp, (exec w (newTracedReader ctx tracer rd name) (pre ++ [Call.Read p env])).span = some sp ∧
      (callEvents w (newTracedReader ctx tracer rd name) pre (Call.Read p env)).filter
          Event.isSetStatus = [Event.SetStatus sp Code.Ok ""] := by
  have hwf0 := newTracedReader_wf ctx tracer rd name
  have hwf := exec_wf w pre _ hwf0
  have hend := exec_new_not_ended w ctx tracer rd name pre hpre
  obtain ⟨sp, hsp, hev⟩ := events_Read_err w _ p env GoError.EOF hwf hend herr
  refine ⟨sp, ?_, ?_⟩
  · rw [exec_append w]; exact hsp
  · unfold callEvents
    rw [hev]
    by_cases hg : (exec w (newTracedReader ctx tracer rd name) pre).guardOpen = true <;>
      simp [hg, Event.isSetStatus, GoError.isEOF]

/-- C5 at the spec's scenario A: `(5, nil)` then `(0, io.EOF)`. -/
theorem C5_eof_sets_ok_status_witness :
    ∃ sp, (exec 64 (newTracedReader 1 2 ⟨3, true⟩ "body")
        ([Call.Read [0, 0, 0, 0, 0] ⟨7, 5, none⟩] ++
          [Call.Read [0, 0, 0, 0, 0] ⟨8, 0, some GoError.EOF⟩])).span = some sp ∧
      (callEvents 64 (newTracedReader 1 2 ⟨3, true⟩ "body")
          [Call.Read [0, 0, 0, 0, 0] ⟨7, 5, none⟩]
          (Call.Read [0, 0, 0, 0, 0] ⟨8, 0, some GoError.EOF⟩)).filter
          Event.isSetStatus = [Event.SetStatus sp Code.Ok ""] :=
  C5_eof_sets_ok_status 64 1 2 ⟨3, true⟩ "body" [Call.Read [0, 0, 0, 0, 0] ⟨7, 5, none⟩]
    [0, 0, 0, 0, 0] ⟨8, 0, some GoError.EOF⟩ (by decide) rfl

/-- C6, the code at the failing input: a first read returning `(0, err)` with
`err = errors.New("")`, which is not the sentinel, makes the very `SetStatus`
call that a first read returning `(0, io.EOF)` makes, code `Ok` and empty
description; and with a message, the code passed is still `Ok`. -/
theorem C6_error_status_is_ok :
    (GoError.New "").isEOF = false ∧
    (callEvents 64 (newTracedReader 1 2 ⟨3, true⟩ "body") []
        (Call.Read [0] ⟨7, 0, some (GoError.New "")⟩)).filter Event.isSetStatus =
      [Event.SetStatus 7 Code.Ok ""] ∧
    (callEvents 64 (newTracedReader 1 2 ⟨3, true⟩ "body") []
        (Call.Read [0] ⟨7, 0, some GoError.EOF⟩)).filter Event.isSetStatus =
      [Event.SetStatus 7 Code.Ok ""] ∧
    (callEvents 64 (newTracedReader 1 2 ⟨3, true⟩ "body") []
        (Call.Read [0] ⟨7, 0, some (GoError.New "connection reset")⟩)).filter Event.isSetStatus =
      [Event.SetStatus 7 Code.Ok "connection reset"] := by
  refine ⟨rfl, ?_, ?_, ?_⟩ <;> decide

/-- C7: in every reader state, `Close` calls the wrapped stream's `Close` exactly
once and returns exactly its error when the wrapped stream is an `io.Closer`,
and calls nothing and returns nil when it is not. -/
theorem C7_close_returns_delegate_error (r : tracedReader) (closeErr : Option GoError) :
    (r.r.isCloser = true →
      (r.Close closeErr).ret = some closeErr ∧ (r.Close closeErr).events = [Event.Close r.r]) ∧
    (r.r.isCloser = false →
      (r.Close closeErr).ret = some none ∧ (r.Close closeErr).events = []) := by
  constructor <;> intro h <;> simp [tracedReader.Close, h]

/-- C7 at concrete inputs: a closer whose `Close` fails, and a stream without
close capability (the spec's scenario C). -/
theorem C7_close_returns_delegate_error_witness :
    ((newTracedReader 1 2 ⟨3, true⟩ "body").Close (some (GoError.New "broken pipe"))).ret =
      some (some (GoError.New "broken pipe")) ∧
    ((newTracedReader 1 2 ⟨3, false⟩ "body").Close (some (GoError.New "broken pipe"))).ret =
      some none ∧
    ((newTracedReader 1 2 ⟨3, false⟩ "body").Close (some (GoError.New "broken pipe"))).events =
      [] :=
  ⟨((C7_close_returns_delegate_error (newTracedReader 1 2 ⟨3, true⟩ "body")
      (some (GoError.New "broken pipe"))).1 rfl).1,
   (C7_close_returns_delegate_error (newTracedReader 1 2 ⟨3, false⟩ "body")
      (some (GoError.New "broken pipe"))).2 rfl⟩

theorem exec_of_ended (w : Nat) (cs : List Call) :
    ∀ r : tracedReader, r.ended = true → exec w r cs = r := by
  induction cs with
  | nil => intro r _; rfl
  | cons c cs ih =>
    intro r h
    simp only [exec]
    rw [step_of_ended w r c h]
    exact ih r h

theorem step_tracing_of_ended (w : Nat) (r : tracedReader) (c : Call) (h : r.ended = true) :
    (step w r c).2.filter Event.isTracing = [] := by
  cases c with
  | Read p env => rw [events_Read_ended w r p env h]; simp [Event.isTracing]
  | Close e =>
    rw [events_Close w]
    by_cases hc : r.r.isCloser = true <;> simp [hc, Event.isTracing]

theorem trace_tracing_of_ended (w : Nat) (cs : List Call) :
    ∀ r : tracedReader, r.ended = true → (trace w r cs).filter Event.isTracing = [] := by
  induction cs with
  | nil => intro r _; rfl
  | cons c cs ih =>
    intro r h
    simp only [trace, List.filter_append]
    rw [step_tracing_of_ended w r c h, step_of_ended w r c h, ih r h]
    rfl

/-- C8: in every reader state with `ended = true` and for every delegate result,
`Read` calls the wrapped stream's `Read` and nothing else, returns the
delegate's result and leaves the reader unchanged; hence over any further calls
`cs` the reader stays as it is and no tracer or span operation is called. -/
theorem C8_read_after_end_is_passthrough (w : Nat) (r : tracedReader) (p : Buffer) (env : ReadEnv)
    (cs : List Call) (h : r.ended = true) :
    (r.Read w p env).ret = some (env.n, env.err) ∧
    (r.Read w p env).state = r ∧
    (r.Read w p env).events = [Event.Read r.r p] ∧
    exec w r cs = r ∧
    (trace w r cs).filter Event.isTracing = [] := by
  rw [Read_of_ended w r p env h]
  exact ⟨rfl, rfl, rfl, exec_of_ended w cs r h, trace_tracing_of_ended w cs r h⟩

/-- C8 at the spec's scenario D: after `(5, nil)` and `(0, io.EOF)`, one more
read returning 4 bytes is passed through and changes nothing. -/
theorem C8_read_after_end_is_passthrough_witness :
    ((exec 64 (newTracedReader 1 2 ⟨3, true⟩ "body")
        [Call.Read [0, 0, 0, 0, 0] ⟨7, 5, none⟩,
         Call.Read [0, 0, 0, 0, 0] ⟨8, 0, some GoError.EOF⟩]).Read 64 [0, 0, 0, 0]
        ⟨9, 4, none⟩).ret = some (4, none) ∧
    ((exec 64 (newTracedReader 1 2 ⟨3, true⟩ "body")
        [Call.Read [0, 0, 0, 0, 0] ⟨7, 5, none⟩,
         Call.Read [0, 0, 0, 0, 0] ⟨8, 0, some GoError.EOF⟩]).Read 64 [0, 0, 0, 0]
        ⟨9, 4, none⟩).state =
      { traceCtx := 1, name := "body", span := some 7, tracer := 2, reads := 2,
        totalData := 5, ended := true, r := ⟨3, true⟩ } :=
  ⟨(C8_read_after_end_is_passthrough 64
      (exec 64 (newTracedReader 1 2 ⟨3, true⟩ "body")
        [Call.Read [0, 0, 0, 0, 0] ⟨7, 5, none⟩,
         Call.Read [0, 0, 0, 0, 0] ⟨8, 0, some GoError.EOF⟩])
      [0, 0, 0, 0] ⟨9, 4, none⟩ [] (by decide)).1,
   (C8_read_after_end_is_passthrough 64
      (exec 64 (newTracedReader 1 2 ⟨3, true⟩ "body")
        [Call.Read [0, 0, 0, 0, 0] ⟨7, 5, none⟩,
         Call.Read [0, 0, 0, 0, 0] ⟨8, 0, some GoError.EOF⟩])
      [0, 0, 0, 0] ⟨9, 4, none⟩ [] (by decide)).2.1.trans (by decide)⟩

/-- C9: in every reader state and for every outcome of the wrapped stream's
`Close`, `tracedReader.Close` leaves the reader, all its fields, unchanged and
calls no tracer or span operation. -/
theorem C9_close_frame (r : tracedReader) (closeErr : Option GoError) :
    (r.Close closeErr).state = r ∧
    (r.Close closeErr).events.filter Event.isTracing = [] := by
  unfold tracedReader.Close
  split <;> simp [Event.isTracing]

/-- C10: for a reader built by `newTracedReader`, a read `c` that receives the
first non-nil delegate error (after calls `pre` without one) ends its event log
with `SetAttributes`, `SetStatus`, `End` on the reader's span, in that order and
adjacent, calls nothing else on a span, and takes `ended` from false to true;
any other call makes no span operation and leaves `ended` as it was; so the span
operations of a whole run `cs` are none, or exactly these three, once each. -/
theorem C10_terminal_span_operations (w : Nat) (ctx : Context) (tracer : Tracer) (rd : Reader)
    (name : String) (pre : List Call) (c : Call) (cs : List Call) :
    ((c.isErrRead = true ∧ ∀ d ∈ pre, d.isErrRead = false) →
      ∃ front sp kv code descr,
        (exec w (newTracedReader ctx tracer rd name) (pre ++ [c])).span = some sp ∧
        callEvents w (newTracedReader ctx tracer rd name) pre c =
          front ++ [Event.SetAttributes sp kv, Event.SetStatus sp code descr, Event.End sp] ∧
        front.filter Event.isSpanOp = [] ∧
        (exec w (newTracedReader ctx tracer rd name) pre).ended = false ∧
        (exec w (newTracedReader ctx tracer rd name) (pre ++ [c])).ended = true) ∧
    (¬ (c.isErrRead = true ∧ ∀ d ∈ pre, d.isErrRead = false) →
      (callEvents w (newTracedReader ctx tracer rd name) pre c).filter Event.isSpanOp = [] ∧
      (exec w (newTracedReader ctx tracer rd name) (pre ++ [c])).ended =
        (exec w (newTracedReader ctx tracer rd name) pre).ended) ∧
    ((trace w (newTracedReader ctx tracer rd name) cs).filter Event.isSpanOp = [] ∨
      ∃ sp kv code descr,
        (trace w (newTracedReader ctx tracer rd name) cs).filter Event.isSpanOp =
          [Event.SetAttributes sp kv, Event.SetStatus sp code descr, Event.End sp]) := by
  have hwf0 := newTracedReader_wf ctx tracer rd name
  have hwf := exec_wf w pre _ hwf0
  have hended : (exec w (newTracedReader ctx tracer rd name) pre).ended =
      pre.any Call.isErrRead := by
    rw [exec_ended_eq w pre _ hwf0]; simp [newTracedReader]
  have hstep : (exec w (newTracedReader ctx tracer rd name) (pre ++ [c])) =
      (step w (exec w (newTracedReader ctx tracer rd name) pre) c).1 := by
    rw [exec_append w]; rfl
  refine ⟨?_, ?_, ?_⟩
  rotate_left 2
  · obtain ⟨h1, h2⟩ := trace_spanOps w cs _ hwf0 rfl
    cases hany : cs.any Call.isErrRead with
    | false => exact Or.inl (h1 hany)
    | true => exact Or.inr (h2 hany)
  · rintro ⟨hc, hpre⟩
    have hend := exec_new_not_ended w ctx tracer rd name pre hpre
    cases c with
    | Close e => simp [Call.isErrRead] at hc
    | Read p env =>
      cases herr : env.err with
      | none => simp [Call.isErrRead, herr] at hc
      | some e =>
        obtain ⟨sp, hsp, hev⟩ := events_Read_err w _ p env e hwf hend herr
        refine ⟨(if (exec w (newTracedReader ctx tracer rd name) pre).guardOpen then
            [Event.Start (exec w (newTracedReader ctx tracer rd name) pre).tracer
              (exec w (newTracedReader ctx tracer rd name) pre).traceCtx
              (exec w (newTracedReader ctx tracer rd name) pre).name] else []) ++
            [Event.Read (exec w (newTracedReader ctx tracer rd name) pre).r p],
          sp,
          [{ key := "reads",
             value := wrapInt w ((exec w (newTracedReader ctx tracer rd name) pre).reads + 1) },
           { key := "bytes_read",
             value := wrapInt 64
               ((exec w (newTracedReader ctx tracer rd name) pre).totalData + env.n) }],
          Code.Ok, (if e.isEOF then "" else e.Error), ?_, ?_, ?_, hend, ?_⟩
        · rw [hstep]; exact hsp
        · unfold callEvents; rw [hev]; simp
        · by_cases hg : (exec w (newTracedReader ctx tracer rd name) pre).guardOpen = true <;>
            simp [hg, Event.isSpanOp]
        · rw [hstep, step_ended_eq w _ _ hwf, hend]
          simp [Call.isErrRead, herr]
  · intro hnot
    have hcase : c.isErrRead = false ∨
        (exec w (newTracedReader ctx tracer rd name) pre).ended = true := by
      rw [hended]
      by_cases hc : c.isErrRead = true
      · right
        by_contra hany
        exact hnot ⟨hc, (any_eq_false_iff pre Call.isErrRead).1 (by simpa using hany)⟩
      · left; simpa using hc
    constructor
    · rcases step_spanOps w _ c hwf with ⟨hc, he, -⟩ | ⟨-, hnil⟩
      · rcases hcase with h | h
        · rw [h] at hc; cases hc
        · rw [h] at he; cases he
      · exact hnil
    · rw [hstep, step_ended_eq w _ _ hwf]
      rcases hcase with h | h <;> simp [h]

/-- C10 at the spec's scenario A: the read returning `(0, io.EOF)` after one
returning `(5, nil)` ends its log with the three span calls. -/
theorem C10_terminal_span_operations_witness :
    ∃ front sp kv code descr,
      (exec 64 (newTracedReader 1 2 ⟨3, true⟩ "body")
        ([Call.Read [0, 0, 0, 0, 0] ⟨7, 5, none⟩] ++
          [Call.Read [0, 0, 0, 0, 0] ⟨8, 0, some GoError.EOF⟩])).span = some sp ∧
      callEvents 64 (newTracedReader 1 2 ⟨3, true⟩ "body")
          [Call.Read [0, 0, 0, 0, 0] ⟨7, 5, none⟩]
          (Call.Read [0, 0, 0, 0, 0] ⟨8, 0, some GoError.EOF⟩) =
        front ++ [Event.SetAttributes sp kv, Event.SetStatus sp code descr, Event.End sp] ∧
      front.filter Event.isSpanOp = [] ∧
      (exec 64 (newTracedReader 1 2 ⟨3, true⟩ "body")
        [Call.Read [0, 0, 0, 0, 0] ⟨7, 5, none⟩]).ended = false ∧
      (exec 64 (newTracedReader 1 2 ⟨3, true⟩ "body")
        ([Call.Read [0, 0, 0, 0, 0] ⟨7, 5, none⟩] ++
          [Call.Read [0, 0, 0, 0, 0] ⟨8, 0, some GoError.EOF⟩])).ended = true :=
  (C10_terminal_span_operations 64 1 2 ⟨3, true⟩ "body" [Call.Read [0, 0, 0, 0, 0] ⟨7, 5, none⟩]
    (Call.Read [0, 0, 0, 0, 0] ⟨8, 0, some GoError.EOF⟩) []).1 ⟨rfl, by decide⟩

/-- C9 at a concrete input: closing an active reader whose stream fails to close. -/
theorem C9_close_frame_witness :
    (({ traceCtx := 1, name := "body", span := some 7, tracer := 2, reads := 4,
        totalData := 40, ended := false, r := ⟨3, true⟩ } : tracedReader).Close
        (some (GoError.New "broken pipe"))).state =
      { traceCtx := 1, name := "body", span := some 7, tracer := 2, reads := 4,
        totalData := 40, ended := false, r := ⟨3, true⟩ } :=
  (C9_close_frame _ _).1

/-! ## Further facts about one call -/

/-- A reader that has counted reads but holds no span panics on a read that
gets an error: the invariant of the reachable states is what rules this out. -/
theorem Read_panics_without_span :
    (({ traceCtx := 1, name := "body", span := none, tracer := 2, reads := 5,
        totalData := 0, ended := false, r := ⟨3, true⟩ } : tracedReader).Read 64 [0]
        ⟨7, 0, some GoError.EOF⟩).ret = none := by
  decide

/-- In every state, the events of a `Read` are the guarded `Start`, the
delegated `Read`, and possibly span calls after it. -/
theorem Read_events_shape (w : Nat) (r : tracedReader) (p : Buffer) (env : ReadEnv) :
    ∃ rest, (r.Read w p env).events = (r.startSpan env).2 ++ Event.Read r.r p :: rest ∧
      rest.filter Event.isRead = [] ∧ rest.filter Event.isStart = [] := by
  have h1 := startSpan_ended r env
  have h2 := startSpan_r r env
  cases hend : r.ended with
  | true =>
    refine ⟨[], ?_, rfl, rfl⟩
    rw [Read_of_ended w r p env hend]
    simp [tracedReader.startSpan, hend]
  | false =>
    cases herr : env.err with
    | none =>
      refine ⟨[], ?_, rfl, rfl⟩
      rw [Read_of_ok w r p env hend herr]
    | some e =>
      cases hsp : (r.startSpan env).1.span with
      | none =>
        refine ⟨[], ?_, rfl, rfl⟩
        simp only [tracedReader.Read]
        simp [h1, h2, hend, herr, tracedReader.endSpan, hsp]
      | some sp =>
        refine ⟨[Event.SetAttributes sp
             [{ key := "reads", value := wrapInt w ((r.startSpan env).1.reads + 1) },
              { key := "bytes_read", value := wrapInt 64 ((r.startSpan env).1.totalData + env.n) }],
           Event.SetStatus sp Code.Ok (if e.isEOF then "" else e.Error),
           Event.End sp], ?_, ?_, ?_⟩
        · rw [Read_of_err w r p env e sp hend herr hsp]
        · simp [Event.isRead]
        · simp [Event.isStart]

/-- No call changes the fields fixed by the constructor. -/
theorem step_fields (w : Nat) (r : tracedReader) (c : Call) :
    (step w r c).1.traceCtx = r.traceCtx ∧ (step w r c).1.name = r.name ∧
    (step w r c).1.tracer = r.tracer ∧ (step w r c).1.r = r.r := by
  have hs : ∀ env : ReadEnv, (r.startSpan env).1.traceCtx = r.traceCtx ∧
      (r.startSpan env).1.name = r.name ∧ (r.startSpan env).1.tracer = r.tracer ∧
      (r.startSpan env).1.r = r.r := by
    intro env
    unfold tracedReader.startSpan
    split <;> exact ⟨rfl, rfl, rfl, rfl⟩
  cases c with
  | Close e => rw [step_Close w]; exact ⟨rfl, rfl, rfl, rfl⟩
  | Read p env =>
    have h1 := startSpan_ended r env
    cases hend : r.ended with
    | true => rw [step_of_ended w r _ hend]; exact ⟨rfl, rfl, rfl, rfl⟩
    | false =>
      cases herr : env.err with
      | none =>
        simp only [step, Read_of_ok w r p env hend herr]
        exact hs env
      | some e =>
        cases hsp : (r.startSpan env).1.span with
        | none =>
          simp only [step, tracedReader.Read]
          simp [h1, hend, herr, tracedReader.endSpan, hsp]
          exact hs env
        | some sp =>
          simp only [step, Read_of_err w r p env e sp hend herr hsp]
          exact hs env

theorem exec_fields (w : Nat) (cs : List Call) :
    ∀ r : tracedReader, (exec w r cs).traceCtx = r.traceCtx ∧ (exec w r cs).name = r.name ∧
      (exec w r cs).tracer = r.tracer ∧ (exec w r cs).r = r.r := by
  induction cs with
  | nil => intro r; exact ⟨rfl, rfl, rfl, rfl⟩
  | cons c cs ih =>
    intro r
    obtain ⟨a1, a2, a3, a4⟩ := ih (step w r c).1
    obtain ⟨b1, b2, b3, b4⟩ := step_fields w r c
    simp only [exec]
    exact ⟨a1.trans b1, a2.trans b2, a3.trans b3, a4.trans b4⟩

/-- Calls that are not reads leave the reader as it is. -/
theorem exec_of_no_read (w : Nat) (cs : List Call) (r : tracedReader)
    (h : ∀ d ∈ cs, d.isRead = false) : exec w r cs = r := by
  induction cs with
  | nil => rfl
  | cons c cs ih =>
    have hc := h c (List.mem_cons_self _ _)
    cases c with
    | Read p env => simp [Call.isRead] at hc
    | Close e =>
      simp only [exec]
      rw [step_Close w]
      exact ih (fun d hd => h d (List.mem_cons_of_mem _ hd))

/-- Every `Start` call of one call is made on the reader's tracer with the
reader's trace w context and name. -/
theorem step_Start_args (w : Nat) (r : tracedReader) (c : Call) (t : Tracer) (x : Context)
    (nm : String)
    (h : Event.Start t x nm ∈ (step w r c).2) :
    t = r.tracer ∧ x = r.traceCtx ∧ nm = r.name := by
  cases c with
  | Close e =>
    rw [events_Close w] at h
    by_cases hc : r.r.isCloser = true <;> simp [hc] at h
  | Read p env =>
    obtain ⟨rest, hev, -, hrest⟩ := Read_events_shape w r p env
    simp only [step] at h
    rw [hev, startSpan_events, List.mem_append, List.mem_cons] at h
    rcases h with h | h | h
    · by_cases hg : r.guardOpen = true
      · simp [hg] at h
        exact h
      · simp [hg] at h
    · cases h
    · have hmem : Event.Start t x nm ∈ rest.filter Event.isStart :=
        List.mem_filter.2 ⟨h, rfl⟩
      rw [hrest] at hmem
      cases hmem

theorem trace_Start_args (w : Nat) (cs : List Call) :
    ∀ (r : tracedReader) (t : Tracer) (x : Context) (nm : String),
      Event.Start t x nm ∈ trace w r cs → t = r.tracer ∧ x = r.traceCtx ∧ nm = r.name := by
  induction cs with
  | nil => intro r t x nm h; cases h
  | cons c cs ih =>
    intro r t x nm h
    simp only [trace, List.mem_append] at h
    rcases h with h | h
    · exact step_Start_args w r c t x nm h
    · obtain ⟨a1, a2, a3⟩ := ih _ t x nm h
      obtain ⟨b1, b2, b3, -⟩ := step_fields w r c
      exact ⟨a1.trans b3, a2.trans b1, a3.trans b2⟩

/-- A read on a reader as the constructor leaves it: the log opens with `Start`,
then the delegated `Read`, and the span `Start` returned is the one stored. -/
theorem Read_fresh (w : Nat) (ctx : Context) (tracer : Tracer) (rd : Reader) (name : String)
    (p : Buffer) (env : ReadEnv) :
    (∃ rest, (step w (newTracedReader ctx tracer rd name) (Call.Read p env)).2 =
        Event.Start tracer ctx name :: Event.Read rd p :: rest ∧
        rest.filter Event.isRead = [] ∧ rest.filter Event.isStart = []) ∧
    (step w (newTracedReader ctx tracer rd name) (Call.Read p env)).1.span = some env.span := by
  have hst := startSpan_fresh (newTracedReader ctx tracer rd name) env rfl rfl
  constructor
  · obtain ⟨rest, hev, h1, h2⟩ := Read_events_shape w (newTracedReader ctx tracer rd name) p env
    refine ⟨rest, ?_, h1, h2⟩
    simp only [step]
    rw [hev, hst]
    rfl
  · cases herr : env.err with
    | none =>
      simp only [step, Read_of_ok w (newTracedReader ctx tracer rd name) p env rfl herr, hst]
    | some e =>
      have hsp : ((newTracedReader ctx tracer rd name).startSpan env).1.span =
          some env.span := by rw [hst]
      simp only [step,
        Read_of_err w (newTracedReader ctx tracer rd name) p env e env.span rfl herr hsp, hst]

/-! ## The span over a run -/

/-- With the start guard closed, no call changes the span held. -/
theorem step_span_of_closed (w : Nat) (r : tracedReader) (c : Call) (hwf : r.wf)
    (hg : r.guardOpen = false) : (step w r c).1.span = r.span := by
  cases c with
  | Close e => rw [step_Close w]
  | Read p env =>
    cases hend : r.ended with
    | true => rw [step_of_ended w r _ hend]
    | false =>
      have hskip : r.startSpan env = (r, []) := by
        apply startSpan_skip
        left
        intro h0
        simp [tracedReader.guardOpen, h0, hend] at hg
      cases herr : env.err with
      | none => simp only [step, Read_of_ok w r p env hend herr, hskip]
      | some e =>
        obtain ⟨sp, hsp⟩ := wf_span r env hwf hend
        simp only [step, Read_of_err w r p env e sp hend herr hsp, hskip]

/-- A read that finds the start guard open stores the span `Start` returns. -/
theorem step_span_of_open (w : Nat) (r : tracedReader) (p : Buffer) (env : ReadEnv)
    (h0 : r.reads = 0) (hend : r.ended = false) :
    (step w r (Call.Read p env)).1.span = some env.span := by
  have hst := startSpan_fresh r env h0 hend
  have hsp : (r.startSpan env).1.span = some env.span := by rw [hst]
  cases herr : env.err with
  | none => simp only [step, Read_of_ok w r p env hend herr, hst]
  | some e => simp only [step, Read_of_err w r p env e env.span hend herr hsp, hst]

/-- A single nil-error read on a reader whose start guard is open leaves the
span that this read's `Start` returned in the reader. -/
theorem exec_read_of_open (w : Nat) (r : tracedReader) (p : Buffer) (sp : Span) (n : Int)
    (h0 : r.reads = 0) (hend : r.ended = false) :
    (exec w r [Call.Read p ⟨sp, n, none⟩]).span = some sp :=
  step_span_of_open w r p ⟨sp, n, none⟩ h0 hend

/-- After a read, and after any call on a reader that holds a span, the reader
holds a span. -/
theorem step_span_ne_none (w : Nat) (r : tracedReader) (c : Call) (hwf : r.wf)
    (h : c.isRead = true ∨ r.span ≠ none) : (step w r c).1.span ≠ none := by
  have hkeep : ∀ env : ReadEnv, r.span ≠ none → (r.startSpan env).1.span ≠ none := by
    intro env hs
    unfold tracedReader.startSpan
    split
    · simp
    · exact hs
  cases hend : r.ended with
  | true =>
    rw [step_of_ended w r c hend]
    intro hn
    have := (hwf hn).2
    rw [hend] at this
    cases this
  | false =>
    cases c with
    | Close e =>
      rw [step_Close w]
      rcases h with h | h
      · simp [Call.isRead] at h
      · exact h
    | Read p env =>
      obtain ⟨sp, hsp⟩ := wf_span r env hwf hend
      cases herr : env.err with
      | none => simp [step, Read_of_ok w r p env hend herr, hsp]
      | some e => simp [step, Read_of_err w r p env e sp hend herr hsp, hsp]

theorem exec_span_ne_none (w : Nat) (cs : List Call) :
    ∀ r : tracedReader, r.wf → (cs.any Call.isRead = true ∨ r.span ≠ none) →
      (exec w r cs).span ≠ none := by
  induction cs with
  | nil =>
    intro r _ h
    rcases h with h | h
    · simp at h
    · exact h
  | cons c cs ih =>
    intro r hwf h
    simp only [exec]
    apply ih _ (step_wf w r c hwf)
    cases hc : c.isRead with
    | true => exact Or.inr (step_span_ne_none w r c hwf (Or.inl hc))
    | false =>
      rcases h with h | h
      · left
        simpa [hc] using h
      · exact Or.inr (step_span_ne_none w r c hwf (Or.inr h))

/-- In a run with at most `2 ^ w` reads, a span once held is kept. -/
theorem exec_span_keep (w : Nat) (ctx : Context) (tracer : Tracer) (rd : Reader)
    (name : String) (post : List Call) :
    ∀ (pre : List Call) (sp : Span), (pre ++ post).countP Call.isRead ≤ 2 ^ w →
      (exec w (newTracedReader ctx tracer rd name) pre).span = some sp →
      (exec w (newTracedReader ctx tracer rd name) (pre ++ post)).span = some sp := by
  induction post with
  | nil => intro pre sp _ h; simpa using h
  | cons c post ih =>
    intro pre sp hcount hsp
    have hwf := exec_wf w pre _ (newTracedReader_wf ctx tracer rd name)
    have hstep : (exec w (newTracedReader ctx tracer rd name) (pre ++ [c])).span = some sp := by
      rw [exec_append]
      show (step w (exec w (newTracedReader ctx tracer rd name) pre) c).1.span = some sp
      cases hc : c.isRead with
      | false =>
        cases c with
        | Read p env => simp [Call.isRead] at hc
        | Close e => rw [step_Close w]; exact hsp
      | true =>
        have hlt : pre.countP Call.isRead < 2 ^ w := by
          simp only [List.countP_append, List.countP_cons, hc] at hcount
          simp at hcount
          omega
        have hany : pre.any Call.isRead = true := by
          cases hany : pre.any Call.isRead with
          | true => rfl
          | false =>
            exfalso
            rw [exec_of_no_read w pre _ ((any_eq_false_iff pre Call.isRead).1 hany)] at hsp
            cases hsp
        have hg := guardOpen_new w ctx tracer rd name pre hlt
        rw [hany] at hg
        rw [step_span_of_closed w _ c hwf hg]
        exact hsp
    have hlist : pre ++ c :: post = (pre ++ [c]) ++ post := by simp
    rw [hlist] at hcount ⊢
    exact ih (pre ++ [c]) sp hcount hstep

/-! ## The claims, continued -/

/-- C11: for every non-nil error `e` that the delegate returns on the terminal
read, sentinel or not, the one `SetStatus` call of that read has code `Ok`; when
`errors.Is(e, io.EOF)` is false its description is `e.Error()`; no `SetStatus`
call of the read has another code. -/
theorem C11_terminal_status_code_is_ok (w : Nat) (ctx : Context) (tracer : Tracer) (rd : Reader)
    (name : String) (pre : List Call) (p : Buffer) (env : ReadEnv) (e : GoError)
    (hpre : ∀ d ∈ pre, d.isErrRead = false) (herr : env.err = some e) :
    (∃ sp descr,
      (callEvents w (newTracedReader ctx tracer rd name) pre (Call.Read p env)).filter
          Event.isSetStatus = [Event.SetStatus sp Code.Ok descr] ∧
      (e.isEOF = false → descr = e.Error)) ∧
    (∀ sp code descr, Event.SetStatus sp code descr ∈
        callEvents w (newTracedReader ctx tracer rd name) pre (Call.Read p env) →
      code = Code.Ok) := by
  have hwf0 := newTracedReader_wf ctx tracer rd name
  have hwf := exec_wf w pre _ hwf0
  have hend := exec_new_not_ended w ctx tracer rd name pre hpre
  obtain ⟨sp, -, hev⟩ := events_Read_err w _ p env e hwf hend herr
  have hfilter : (callEvents w (newTracedReader ctx tracer rd name) pre (Call.Read p env)).filter
      Event.isSetStatus = [Event.SetStatus sp Code.Ok (if e.isEOF then "" else e.Error)] := by
    unfold callEvents
    rw [hev]
    by_cases hg : (exec w (newTracedReader ctx tracer rd name) pre).guardOpen = true <;>
      simp [hg, Event.isSetStatus]
  constructor
  · exact ⟨sp, _, hfilter, fun h => by simp [h]⟩
  · intro sp' code descr hmem
    have hm : Event.SetStatus sp' code descr ∈
        (callEvents w (newTracedReader ctx tracer rd name) pre (Call.Read p env)).filter
          Event.isSetStatus := List.mem_filter.2 ⟨hmem, rfl⟩
    rw [hfilter, List.mem_singleton] at hm
    injection hm with _ h2 _

/-- C11 at the spec's scenario B: a first read returning `(0, err)` with a
non-sentinel `err` records code `Ok` with the error's message. -/
theorem C11_terminal_status_code_is_ok_witness :
    (∃ sp descr,
      (callEvents 64 (newTracedReader 1 2 ⟨3, true⟩ "body") []
          (Call.Read [0] ⟨7, 0, some (GoError.New "connection reset")⟩)).filter
          Event.isSetStatus = [Event.SetStatus sp Code.Ok descr] ∧
      ((GoError.New "connection reset").isEOF = false →
        descr = (GoError.New "connection reset").Error)) ∧
    (∀ sp code descr, Event.SetStatus sp code descr ∈
        callEvents 64 (newTracedReader 1 2 ⟨3, true⟩ "body") []
          (Call.Read [0] ⟨7, 0, some (GoError.New "connection reset")⟩) →
      code = Code.Ok) :=
  C11_terminal_status_code_is_ok 64 1 2 ⟨3, true⟩ "body" [] [0]
    ⟨7, 0, some (GoError.New "connection reset")⟩ (GoError.New "connection reset")
    (by decide) rfl

/-- C12: on the first read of a reader built by `newTracedReader` (after calls
`pre` none of which is a read), the event log of the read opens with the `Start`
call, the delegated `Read` comes right after it, neither occurs again in the
log, and the span `Start` returned is stored before the delegated `Read`. -/
theorem C12_start_precedes_delegate_read (w : Nat) (ctx : Context) (tracer : Tracer) (rd : Reader)
    (name : String) (pre : List Call) (p : Buffer) (env : ReadEnv)
    (hpre : ∀ d ∈ pre, d.isRead = false) :
    (∃ rest, callEvents w (newTracedReader ctx tracer rd name) pre (Call.Read p env) =
        Event.Start tracer ctx name :: Event.Read rd p :: rest ∧
        rest.filter Event.isRead = [] ∧ rest.filter Event.isStart = []) ∧
    ((exec w (newTracedReader ctx tracer rd name) pre).startSpan env).1.span = some env.span ∧
    (exec w (newTracedReader ctx tracer rd name) (pre ++ [Call.Read p env])).span =
      some env.span := by
  have hpre' := exec_of_no_read w pre (newTracedReader ctx tracer rd name) hpre
  obtain ⟨h1, h2⟩ := Read_fresh w ctx tracer rd name p env
  refine ⟨?_, ?_, ?_⟩
  · unfold callEvents; rw [hpre']; exact h1
  · rw [hpre', startSpan_fresh _ env rfl rfl]
  · rw [exec_append w, hpre']; exact h2

/-- C12 at a concrete run: close, then a first read returning `(5, nil)`. -/
theorem C12_start_precedes_delegate_read_witness :
    (∃ rest, callEvents 64 (newTracedReader 1 2 ⟨3, true⟩ "body") [Call.Close none]
        (Call.Read [0, 0, 0, 0, 0] ⟨7, 5, none⟩) =
        Event.Start 2 1 "body" :: Event.Read ⟨3, true⟩ [0, 0, 0, 0, 0] :: rest ∧
        rest.filter Event.isRead = [] ∧ rest.filter Event.isStart = []) ∧
    ((exec 64 (newTracedReader 1 2 ⟨3, true⟩ "body") [Call.Close none]).startSpan
        ⟨7, 5, none⟩).1.span = some 7 ∧
    (exec 64 (newTracedReader 1 2 ⟨3, true⟩ "body")
        ([Call.Close none] ++ [Call.Read [0, 0, 0, 0, 0] ⟨7, 5, none⟩])).span = some 7 :=
  C12_start_precedes_delegate_read 64 1 2 ⟨3, true⟩ "body" [Call.Close none] [0, 0, 0, 0, 0]
    ⟨7, 5, none⟩ (by decide)

/-- C13: for a reader built by `newTracedReader(ctx, tracer, r, name)`, the
first read calls `Start` on `tracer` with `ctx` and `name`, every `Start` call of
a run has exactly these arguments, and no call, in whatever state, changes the
fields `traceCtx`, `name`, `tracer` or `r`. -/
theorem C13_start_arguments_and_fixed_fields (w : Nat) (ctx : Context) (tracer : Tracer)
    (rd : Reader)
    (name : String) (pre cs : List Call) (p : Buffer) (env : ReadEnv) (r : tracedReader)
    (c : Call) :
    ((∀ d ∈ pre, d.isRead = false) →
      Event.Start tracer ctx name ∈
        callEvents w (newTracedReader ctx tracer rd name) pre (Call.Read p env)) ∧
    (∀ t x nm, Event.Start t x nm ∈ trace w (newTracedReader ctx tracer rd name) cs →
      t = tracer ∧ x = ctx ∧ nm = name) ∧
    ((exec w (newTracedReader ctx tracer rd name) cs).traceCtx = ctx ∧
      (exec w (newTracedReader ctx tracer rd name) cs).name = name ∧
      (exec w (newTracedReader ctx tracer rd name) cs).tracer = tracer ∧
      (exec w (newTracedReader ctx tracer rd name) cs).r = rd) ∧
    ((step w r c).1.traceCtx = r.traceCtx ∧ (step w r c).1.name = r.name ∧
      (step w r c).1.tracer = r.tracer ∧ (step w r c).1.r = r.r) := by
  refine ⟨?_, ?_, ?_, step_fields w r c⟩
  · intro hpre
    obtain ⟨⟨rest, hev, -, -⟩, -⟩ := Read_fresh w ctx tracer rd name p env
    unfold callEvents
    rw [exec_of_no_read w pre _ hpre, hev]
    exact List.mem_cons_self _ _
  · intro t x nm h
    exact trace_Start_args w cs _ t x nm h
  · exact exec_fields w cs (newTracedReader ctx tracer rd name)

/-- C13 at a concrete run: the first read of a reader built with context 1,
tracer 2 and name "body" calls `Start` with these. -/
theorem C13_start_arguments_and_fixed_fields_witness :
    Event.Start 2 1 "body" ∈
      callEvents 64 (newTracedReader 1 2 ⟨3, true⟩ "body") [Call.Close none]
        (Call.Read [0] ⟨7, 1, none⟩) :=
  (C13_start_arguments_and_fixed_fields 64 1 2 ⟨3, true⟩ "body" [Call.Close none] [] [0]
    ⟨7, 1, none⟩ (newTracedReader 1 2 ⟨3, true⟩ "body") (Call.Close none)).1 (by decide)

theorem isErrRead_of_not_isRead (d : Call) (h : d.isRead = false) : d.isErrRead = false := by
  cases d with
  | Read p env => simp [Call.isRead] at h
  | Close e => rfl

/-- With the start guard closed, a reachable reader holds a span. -/
theorem span_ne_none_of_closed (r : tracedReader) (hwf : r.wf) (hg : r.guardOpen = false) :
    r.span ≠ none := by
  intro hn
  obtain ⟨h0, he⟩ := hwf hn
  simp [tracedReader.guardOpen, h0, he] at hg

/-- C14: for a reader built by `newTracedReader`, after at least one read, all
reads returning a nil error, followed by any number of `Close` calls, `Start`
has been called (exactly once when the run has at most `2 ^ w` reads) and the
span is held, but no `SetAttributes`, `SetStatus` or `End` call has been made
and `ended` is still false. -/
theorem C14_close_before_terminal_read (w : Nat) (ctx : Context) (tracer : Tracer)
    (rd : Reader) (name : String) (reads closes : List Call) (hne : reads ≠ [])
    (hreads : ∀ d ∈ reads, d.isRead = true ∧ d.isErrRead = false)
    (hcloses : ∀ d ∈ closes, d.isRead = false) :
    0 < (trace w (newTracedReader ctx tracer rd name) (reads ++ closes)).countP
      Event.isStart ∧
    ((reads ++ closes).countP Call.isRead ≤ 2 ^ w →
      (trace w (newTracedReader ctx tracer rd name) (reads ++ closes)).countP
        Event.isStart = 1) ∧
    (exec w (newTracedReader ctx tracer rd name) (reads ++ closes)).span ≠ none ∧
    (trace w (newTracedReader ctx tracer rd name) (reads ++ closes)).filter
      Event.isSpanOp = [] ∧
    (exec w (newTracedReader ctx tracer rd name) (reads ++ closes)).ended = false := by
  have hwf0 := newTracedReader_wf ctx tracer rd name
  have hany : (reads ++ closes).any Call.isRead = true := by
    cases reads with
    | nil => exact absurd rfl hne
    | cons d ds => simp [(hreads d (List.mem_cons_self _ _)).1]
  have hno : ∀ d ∈ reads ++ closes, d.isErrRead = false := by
    intro d hd
    rcases List.mem_append.1 hd with h | h
    · exact (hreads d h).2
    · exact isErrRead_of_not_isRead d (hcloses d h)
  have hnoany := (any_eq_false_iff _ Call.isErrRead).2 hno
  refine ⟨?_, ?_, ?_, ?_, exec_new_not_ended w ctx tracer rd name _ hno⟩
  · cases reads with
    | nil => exact absurd rfl hne
    | cons d ds =>
      have hd := (hreads d (List.mem_cons_self _ _)).1
      cases d with
      | Close e => simp [Call.isRead] at hd
      | Read p env =>
        obtain ⟨⟨rest, hev, -, -⟩, -⟩ := Read_fresh w ctx tracer rd name p env
        rw [List.countP_pos_iff]
        refine ⟨Event.Start tracer ctx name, ?_, rfl⟩
        simp only [List.cons_append, trace, List.mem_append]
        left
        rw [hev]
        exact List.mem_cons_self _ _
  · intro hcount
    rw [trace_count_isStart w ctx tracer rd name _ hcount, hany]
    rfl
  · exact exec_span_ne_none w _ _ hwf0 (Or.inl hany)
  · exact (trace_spanOps w _ _ hwf0 rfl).1 hnoany

/-- C14 at a concrete run on a 64-bit platform: reads returning `(5, nil)` and
`(0, nil)`, then two `Close` calls. -/
theorem C14_close_before_terminal_read_witness :
    0 < (trace 64 (newTracedReader 1 2 ⟨3, true⟩ "body")
      ([Call.Read [0, 0, 0, 0, 0] ⟨7, 5, none⟩, Call.Read [0] ⟨8, 0, none⟩] ++
        [Call.Close none, Call.Close (some (GoError.New "closed"))])).countP Event.isStart ∧
    ((([Call.Read [0, 0, 0, 0, 0] ⟨7, 5, none⟩, Call.Read [0] ⟨8, 0, none⟩] ++
        [Call.Close none, Call.Close (some (GoError.New "closed"))]).countP Call.isRead ≤
        2 ^ 64) →
      (trace 64 (newTracedReader 1 2 ⟨3, true⟩ "body")
        ([Call.Read [0, 0, 0, 0, 0] ⟨7, 5, none⟩, Call.Read [0] ⟨8, 0, none⟩] ++
          [Call.Close none, Call.Close (some (GoError.New "closed"))])).countP
        Event.isStart = 1) ∧
    (exec 64 (newTracedReader 1 2 ⟨3, true⟩ "body")
      ([Call.Read [0, 0, 0, 0, 0] ⟨7, 5, none⟩, Call.Read [0] ⟨8, 0, none⟩] ++
        [Call.Close none, Call.Close (some (GoError.New "closed"))])).span ≠ none ∧
    (trace 64 (newTracedReader 1 2 ⟨3, true⟩ "body")
      ([Call.Read [0, 0, 0, 0, 0] ⟨7, 5, none⟩, Call.Read [0] ⟨8, 0, none⟩] ++
        [Call.Close none, Call.Close (some (GoError.New "closed"))])).filter Event.isSpanOp =
      [] ∧
    (exec 64 (newTracedReader 1 2 ⟨3, true⟩ "body")
      ([Call.Read [0, 0, 0, 0, 0] ⟨7, 5, none⟩, Call.Read [0] ⟨8, 0, none⟩] ++
        [Call.Close none, Call.Close (some (GoError.New "closed"))])).ended = false :=
  C14_close_before_terminal_read 64 1 2 ⟨3, true⟩ "body"
    [Call.Read [0, 0, 0, 0, 0] ⟨7, 5, none⟩, Call.Read [0] ⟨8, 0, none⟩]
    [Call.Close none, Call.Close (some (GoError.New "closed"))] (by decide) (by decide)
    (by decide)

/-- C15 (amended): over every sequence of calls on a reader built by
`newTracedReader`, the span is absent before the first read and present after
it, `ended` once true stays true, and the reader is always in one of the states
not started, active, ended, never returning to not started once it has left it;
a span once held is not replaced as long as the run has at most `2 ^ w` reads,
`w` being the width of Go's `int`. -/
theorem C15_lifecycle_is_monotone (w : Nat) (ctx : Context) (tracer : Tracer) (rd : Reader)
    (name : String) (pre post : List Call) :
    ((∀ d ∈ pre, d.isRead = false) →
      (exec w (newTracedReader ctx tracer rd name) pre).span = none) ∧
    (pre.any Call.isRead = true →
      (exec w (newTracedReader ctx tracer rd name) pre).span ≠ none) ∧
    ((pre ++ post).countP Call.isRead ≤ 2 ^ w →
      ∀ sp, (exec w (newTracedReader ctx tracer rd name) pre).span = some sp →
        (exec w (newTracedReader ctx tracer rd name) (pre ++ post)).span = some sp) ∧
    ((exec w (newTracedReader ctx tracer rd name) pre).ended = true →
      (exec w (newTracedReader ctx tracer rd name) (pre ++ post)).ended = true) ∧
    ((exec w (newTracedReader ctx tracer rd name) pre).NotStarted ∨
      (exec w (newTracedReader ctx tracer rd name) pre).Active ∨
      (exec w (newTracedReader ctx tracer rd name) pre).Ended) ∧
    (¬ (exec w (newTracedReader ctx tracer rd name) pre).NotStarted →
      ¬ (exec w (newTracedReader ctx tracer rd name) (pre ++ post)).NotStarted) := by
  have hwf0 := newTracedReader_wf ctx tracer rd name
  have hwf := exec_wf w pre _ hwf0
  refine ⟨?_, ?_, ?_, ?_, ?_, ?_⟩
  · intro h
    rw [exec_of_no_read w pre _ h]
    rfl
  · intro h
    exact exec_span_ne_none w pre _ hwf0 (Or.inl h)
  · intro hcount sp hsp
    exact exec_span_keep w ctx tracer rd name post pre sp hcount hsp
  · intro h
    rw [exec_append, exec_of_ended w post _ h]
    exact h
  · cases hend : (exec w (newTracedReader ctx tracer rd name) pre).ended with
    | true => exact Or.inr (Or.inr hend)
    | false =>
      cases hsp : (exec w (newTracedReader ctx tracer rd name) pre).span with
      | none => exact Or.inl ⟨hsp, (hwf hsp).1, hend⟩
      | some sp => exact Or.inr (Or.inl ⟨by rw [hsp]; simp, hend⟩)
  · intro hnot hns
    have hsome : (exec w (newTracedReader ctx tracer rd name) pre).span ≠ none :=
      fun hn => hnot ⟨hn, (hwf hn).1, (hwf hn).2⟩
    have := exec_span_ne_none w post _ hwf (Or.inr hsome)
    rw [← exec_append] at this
    exact this hns.1

/-- C15 (amended) at a concrete run on a 64-bit platform: the span 7 obtained by
the first read is still the one held after the terminal read and two more
calls, whose `Start` would have returned other spans. -/
theorem C15_lifecycle_is_monotone_witness :
    (exec 64 (newTracedReader 1 2 ⟨3, true⟩ "body")
      ([Call.Read [0, 0, 0, 0, 0] ⟨7, 5, none⟩] ++
        [Call.Read [0] ⟨8, 0, some GoError.EOF⟩, Call.Read [0] ⟨9, 1, none⟩,
         Call.Close none])).span = some 7 :=
  (C15_lifecycle_is_monotone 64 1 2 ⟨3, true⟩ "body" [Call.Read [0, 0, 0, 0, 0] ⟨7, 5, none⟩]
    [Call.Read [0] ⟨8, 0, some GoError.EOF⟩, Call.Read [0] ⟨9, 1, none⟩,
     Call.Close none]).2.2.1 (by decide) 7 (by decide)

/-- C15 as stated fails on a 32-bit platform: the span 7 held after the first
read is replaced by the span 8 when, `2 ^ 32` nil-error reads into the run, the
counter `reads` is back at 0 and the next read calls `Start` again. -/
theorem C15_lifecycle_is_monotone_counterexample :
    (exec 32 (newTracedReader 1 2 ⟨3, true⟩ "body") [Call.Read [0] ⟨7, 1, none⟩]).span =
      some 7 ∧
    (exec 32 (newTracedReader 1 2 ⟨3, true⟩ "body")
      ([Call.Read [0] ⟨7, 1, none⟩] ++
        (List.replicate 4294967295 (Call.Read [0] ⟨7, 1, none⟩) ++
          [Call.Read [0] ⟨8, 1, none⟩]))).span = some 8 := by
  constructor
  · decide
  · have hL : [Call.Read [0] ⟨7, 1, none⟩] ++
        (List.replicate 4294967295 (Call.Read [0] ⟨7, 1, none⟩) ++
          [Call.Read [0] ⟨8, 1, none⟩]) =
        List.replicate 4294967296 (Call.Read [0] ⟨7, 1, none⟩) ++
          [Call.Read [0] ⟨8, 1, none⟩] := by
      have hsucc : List.replicate 4294967296 (Call.Read [0] ⟨7, 1, none⟩) =
          Call.Read [0] ⟨7, 1, none⟩ ::
            List.replicate 4294967295 (Call.Read [0] ⟨7, 1, none⟩) :=
        List.replicate_succ _ 4294967295
      rw [hsucc]
      simp only [List.singleton_append, List.cons_append, List.nil_append]
    obtain ⟨hreads, hended⟩ := exec_replicate_ok 32 1 2 ⟨3, true⟩ "body" [0] ⟨7, 1, none⟩
      4294967296 rfl
    have hzero : wrapInt 32 (((4294967296 : Nat)) : Int) = 0 := by decide
    rw [hzero] at hreads
    rw [hL, exec_append]
    exact exec_read_of_open 32 _ [0] 8 1 hreads hended

/-- C16: in every reader state, `tracedReader.Read(p)` calls the wrapped
stream's `Read` exactly once, on the reader's stream and with the buffer `p`. -/
theorem C16_read_delegates_once (w : Nat) (r : tracedReader) (p : Buffer) (env : ReadEnv) :
    (r.Read w p env).events.filter Event.isRead = [Event.Read r.r p] := by
  obtain ⟨rest, hev, hrest, -⟩ := Read_events_shape w r p env
  rw [hev, startSpan_events, List.filter_append, List.filter_cons, hrest]
  by_cases hg : r.guardOpen = true <;> simp [hg, Event.isRead, Event.isStart]

/-- C17: in every state reached from `newTracedReader` by reads and closes, the
span is present whenever `reads > 0` or `ended` is true, although it starts as
nil; hence a further `Read` never calls a span method on a nil span: it returns
the delegate's result instead of panicking. -/
theorem C17_span_present_when_used (w : Nat) (ctx : Context) (tracer : Tracer) (rd : Reader)
    (name : String) (cs : List Call) (p : Buffer) (env : ReadEnv) :
    (newTracedReader ctx tracer rd name).span = none ∧
    ((0 < (exec w (newTracedReader ctx tracer rd name) cs).reads ∨
        (exec w (newTracedReader ctx tracer rd name) cs).ended = true) →
      (exec w (newTracedReader ctx tracer rd name) cs).span ≠ none) ∧
    ((exec w (newTracedReader ctx tracer rd name) cs).Read w p env).ret =
      some (env.n, env.err) := by
  have hwf := exec_wf w cs _ (newTracedReader_wf ctx tracer rd name)
  refine ⟨rfl, ?_, ?_⟩
  · intro h hn
    obtain ⟨h0, he⟩ := hwf hn
    rcases h with h | h
    · omega
    · rw [he] at h; cases h
  · exact Read_ret_of_lifecycle w _ p env (fun hn => Or.inl (hwf hn).1)

/-- C17 at a concrete run: after a read returning `(5, nil)` the span is held. -/
theorem C17_span_present_when_used_witness :
    (exec 64 (newTracedReader 1 2 ⟨3, true⟩ "body")
      [Call.Read [0, 0, 0, 0, 0] ⟨7, 5, none⟩]).span ≠ none :=
  (C17_span_present_when_used 64 1 2 ⟨3, true⟩ "body" [Call.Read [0, 0, 0, 0, 0] ⟨7, 5, none⟩]
    [0] ⟨8, 0, some GoError.EOF⟩).2.1 (Or.inl (by decide))

/-- C18: the sentinel test of the terminal read is `errors.Is(e, io.EOF)`: for
every terminal error on which it holds, an error that only wraps `io.EOF` and
has its own message included, the `SetStatus` call is `(Ok, "")` and the message
is dropped; when it does not hold, the call is `(Ok, e.Error())`. -/
theorem C18_sentinel_test_is_errors_is (w : Nat) (ctx : Context) (tracer : Tracer) (rd : Reader)
    (name : String) (pre : List Call) (p : Buffer) (env : ReadEnv) (e : GoError)
    (msg : String)
    (hpre : ∀ d ∈ pre, d.isErrRead = false) (herr : env.err = some e) :
    (∃ sp, (exec w (newTracedReader ctx tracer rd name) (pre ++ [Call.Read p env])).span =
        some sp ∧
      (e.isEOF = true →
        (callEvents w (newTracedReader ctx tracer rd name) pre (Call.Read p env)).filter
          Event.isSetStatus = [Event.SetStatus sp Code.Ok ""]) ∧
      (e.isEOF = false →
        (callEvents w (newTracedReader ctx tracer rd name) pre (Call.Read p env)).filter
          Event.isSetStatus = [Event.SetStatus sp Code.Ok e.Error])) ∧
    (GoError.Wrap msg GoError.EOF).isEOF = true ∧
    (GoError.Wrap msg GoError.EOF).Error = msg := by
  have hwf0 := newTracedReader_wf ctx tracer rd name
  have hwf := exec_wf w pre _ hwf0
  have hend := exec_new_not_ended w ctx tracer rd name pre hpre
  obtain ⟨sp, hsp, hev⟩ := events_Read_err w _ p env e hwf hend herr
  refine ⟨⟨sp, ?_, ?_, ?_⟩, rfl, rfl⟩
  · rw [exec_append w]; exact hsp
  · intro hE
    unfold callEvents
    rw [hev]
    by_cases hg : (exec w (newTracedReader ctx tracer rd name) pre).guardOpen = true <;>
      simp [hg, Event.isSetStatus, hE]
  · intro hE
    unfold callEvents
    rw [hev]
    by_cases hg : (exec w (newTracedReader ctx tracer rd name) pre).guardOpen = true <;>
      simp [hg, Event.isSetStatus, hE]

/-- C18 at a concrete input: the terminal error wraps `io.EOF` under the message
"read body: EOF"; the status recorded is `(Ok, "")`. -/
theorem C18_sentinel_test_is_errors_is_witness :
    ∃ sp, (callEvents 64 (newTracedReader 1 2 ⟨3, true⟩ "body") [Call.Read [0] ⟨7, 1, none⟩]
        (Call.Read [0] ⟨8, 0, some (GoError.Wrap "read body: EOF" GoError.EOF)⟩)).filter
      Event.isSetStatus = [Event.SetStatus sp Code.Ok ""] :=
  (C18_sentinel_test_is_errors_is 64 1 2 ⟨3, true⟩ "body"
    [Call.Read [0] ⟨7, 1, none⟩] [0] ⟨8, 0, some (GoError.Wrap "read body: EOF" GoError.EOF)⟩
    (GoError.Wrap "read body: EOF" GoError.EOF) "read body: EOF" (by decide) rfl).1.elim
    (fun sp h => ⟨sp, h.2.1 rfl⟩)

end Ohttp
